import Mathlib

/-!
Verification of the EDA reporting modules `eda_borrower.py` and
`eda_credit_history.py`.

The two modules compute descriptive statistics over an in-memory pandas
DataFrame.  We embed the dataframe shallowly: a dataframe is an ordered
association list of named columns, each column a dtype together with a list
of optional cells (`none` models a missing value / NaN cell).  Floating point
numbers are modelled exactly as rationals; a computed statistic is either a
rational, the NaN sentinel, or a symbolically represented square root
(standard deviations and Pearson correlations are irrational in general).
Fallible dataframe accesses (pandas `KeyError` on a missing column) are
modelled with `Option`: `none` is a raised error, which aborts the rest of a
pipeline exactly as an uncaught Python exception does.
-/

/-- A non-missing cell value: pandas columns used by the two modules hold
either floating point numbers (modelled exactly as rationals) or strings. -/
inductive Cell where
  | num (q : ℚ)
  | str (s : String)
deriving DecidableEq

/-- The pandas dtypes relevant to the modules. `float64` and `int64` are the
numeric dtypes (selected by `select_dtypes(include='number')`), `object` is
the string/mixed dtype. -/
inductive Dtype where
  | float64
  | int64
  | object
deriving DecidableEq

/-- Whether a dtype is selected by pandas `select_dtypes(include='number')`. -/
def isNumericDtype : Dtype → Bool
  | Dtype.float64 => true
  | Dtype.int64 => true
  | Dtype.object => false

/-- Is the cell a number? -/
def Cell.isNum : Cell → Bool
  | Cell.num _ => true
  | Cell.str _ => false

/-- Numeric view of a cell. -/
def Cell.asNum : Cell → Option ℚ
  | Cell.num q => some q
  | Cell.str _ => none

/-- A pandas Series: a dtype and the list of cells, `none` being NaN/missing. -/
structure Column where
  dtype : Dtype
  cells : List (Option Cell)
deriving DecidableEq

/-- A dataframe: named columns in order, plus the row count. -/
structure DataFrame where
  cols : List (String × Column)
  nrows : ℕ
deriving DecidableEq

/-- A column is well formed when a numeric dtype only holds numeric cells. -/
def Column.wf (c : Column) : Prop :=
  isNumericDtype c.dtype = true → c.cells.all (fun x => x.all Cell.isNum) = true

instance (c : Column) : Decidable c.wf := by unfold Column.wf; infer_instance

/-- A dataframe is well formed when column names are distinct and every
column has exactly `nrows` cells, with well formed columns. -/
def DataFrame.wf (df : DataFrame) : Prop :=
  (df.cols.map Prod.fst).Nodup ∧
    ∀ p ∈ df.cols, p.2.cells.length = df.nrows ∧ p.2.wf

instance (df : DataFrame) : Decidable df.wf := by unfold DataFrame.wf; infer_instance

/-- Column selection `df[name]`: `none` models the pandas `KeyError`. -/
def DataFrame.getCol (df : DataFrame) (name : String) : Option Column :=
  (df.cols.find? (fun p => p.1 == name)).map Prod.snd

/-- The non-missing cells of a series (`dropna`). -/
def Column.nonMissing (c : Column) : List Cell :=
  c.cells.filterMap id

/-- The non-missing numeric values of a series; on a well formed numeric
column these are exactly the non-missing cells. -/
def Column.numVals (c : Column) : List ℚ :=
  c.cells.filterMap (fun x => x.bind Cell.asNum)

/-- `series.isna().sum()`. -/
def Column.n_missing (c : Column) : ℕ :=
  c.cells.countP (fun x => x.isNone)

/-- `series.isna().mean()`: the missing fraction, NaN (`none`) on an empty
series exactly as the pandas mean of an empty boolean series is NaN. -/
def Column.missing_pct (c : Column) : Option ℚ :=
  if c.cells.length = 0 then none
  else some ((c.n_missing : ℚ) / (c.cells.length : ℚ))

/-- `series.mean()` over an already extracted list of non-missing values:
NaN (`none`) when there is no value. -/
def meanOpt (xs : List ℚ) : Option ℚ :=
  if xs.length = 0 then none else some (xs.sum / (xs.length : ℚ))

/-- `series.var(ddof=1)` over the non-missing values: NaN (`none`) with
fewer than two values. -/
def sampleVar (xs : List ℚ) : Option ℚ :=
  if xs.length ≤ 1 then none
  else
    let m := xs.sum / (xs.length : ℚ)
    some ((xs.map (fun x => (x - m) ^ 2)).sum / ((xs.length : ℚ) - 1))

/-- A floating point statistic kept exact: `nan` is IEEE NaN, `rat q` the
rational `q`, `sqrtQ q` the real number √q, and `divSqrt a b` the real
number a / √b. -/
inductive RVal where
  | nan
  | rat (q : ℚ)
  | sqrtQ (q : ℚ)
  | divSqrt (a b : ℚ)
deriving DecidableEq

/-- `series.std(ddof=1)`: the square root of the sample variance. -/
def stdRVal (xs : List ℚ) : RVal :=
  match sampleVar xs with
  | none => RVal.nan
  | some v => RVal.sqrtQ v

/-- Sequential evaluation of fallible computations, mirroring a Python loop
that raises on the first failing element: the whole result is `none` as soon
as one element fails. -/
def optTraverse {α β : Type} (f : α → Option β) : List α → Option (List β)
  | [] => some []
  | a :: t =>
    match f a, optTraverse f t with
    | some b, some r => some (b :: r)
    | _, _ => none

/-- Total order on cells, used where pandas sorts group keys (`groupby`
defaults to `sort=True`).  pandas raises on mixed numeric/string
comparisons; the embedding totalises by putting numbers before strings. -/
def Cell.le : Cell → Cell → Prop
  | Cell.num a, Cell.num b => a ≤ b
  | Cell.num _, Cell.str _ => True
  | Cell.str _, Cell.num _ => False
  | Cell.str a, Cell.str b => a ≤ b

instance Cell.decLe : DecidableRel Cell.le := fun a b =>
  match a, b with
  | Cell.num a, Cell.num b => inferInstanceAs (Decidable (a ≤ b))
  | Cell.num _, Cell.str _ => inferInstanceAs (Decidable True)
  | Cell.str _, Cell.num _ => inferInstanceAs (Decidable False)
  | Cell.str a, Cell.str b => inferInstanceAs (Decidable (a ≤ b))

/-! ## eda_borrower.py -/

/-- The fixed borrower column universe `BORROWER_COLS`. -/
def BORROWER_COLS : List String :=
  ["id", "member_id",
   "emp_title", "emp_length",
   "home_ownership",
   "annual_inc", "annual_inc_joint",
   "verification_status", "verification_status_joint",
   "zip_code", "addr_state",
   "purpose", "title", "desc",
   "issue_d", "pymnt_plan", "policy_code",
   "url"]

/-- The borrower report object: the dataframe and the target column name. -/
structure BorrowerProfileEDA where
  df : DataFrame
  target_col : String

/-- One row of `structure_summary()`. -/
structure StructRow where
  column : String
  dtype : Dtype
  n_missing : ℕ
  missing_pct : Option ℚ
  n_unique : ℕ
deriving DecidableEq

/-- The summary row built for one borrower column: name, dtype, missing
count, missing fraction, `nunique(dropna=True)`. -/
def structRowOf (col : String) (c : Column) : StructRow :=
  { column := col, dtype := c.dtype, n_missing := c.n_missing,
    missing_pct := c.missing_pct, n_unique := c.nonMissing.dedup.length }

/-- `BorrowerProfileEDA.structure_summary`: one row per `BORROWER_COLS`
column with dtype, missing count, missing fraction, and `nunique(dropna=True)`;
a missing column raises (`none`). -/
def BorrowerProfileEDA.structure_summary (eda : BorrowerProfileEDA) :
    Option (List StructRow) :=
  optTraverse (fun col => (eda.df.getCol col).map (structRowOf col))
    BORROWER_COLS

/-- One row of `describe().T`: count, mean, std, min, quartiles, max. -/
structure DescRow where
  column : String
  count : ℕ
  mean : Option ℚ
  std : RVal
  min : Option ℚ
  q25 : Option ℚ
  q50 : Option ℚ
  q75 : Option ℚ
  max : Option ℚ
deriving DecidableEq

/-- numpy linear-interpolation quantile on an already sorted nonempty list of
values: the value at fractional position q * (n - 1). -/
def quantileSorted (s : List ℚ) (q : ℚ) : ℚ :=
  let h : ℚ := q * ((s.length : ℚ) - 1)
  let l : ℕ := (⌊h⌋).toNat
  let lo := s.getD l 0
  let hi := s.getD (l + 1) lo
  lo + (h - (l : ℚ)) * (hi - lo)

/-- One `describe()` row for a numeric series, over its non-missing values. -/
def describeRow (name : String) (c : Column) : DescRow :=
  let vs := c.numVals
  let s := vs.insertionSort (· ≤ ·)
  { column := name, count := vs.length, mean := meanOpt vs, std := stdRVal vs,
    min := s.head?,
    q25 := if s.length = 0 then none else some (quantileSorted s (1 / 4)),
    q50 := if s.length = 0 then none else some (quantileSorted s (1 / 2)),
    q75 := if s.length = 0 then none else some (quantileSorted s (3 / 4)),
    max := s.getLast? }

/-- `BorrowerProfileEDA.income_summary`:
`df[["annual_inc", "annual_inc_joint"]].describe().T`.  Only the numeric
variant of pandas `describe` is modelled; the object-dtype variant (count /
unique / top / freq) is out of the modelled scope, so non-numeric income
columns give `none` here. -/
def BorrowerProfileEDA.income_summary (eda : BorrowerProfileEDA) :
    Option (List DescRow) := do
  let a ← eda.df.getCol "annual_inc"
  let b ← eda.df.getCol "annual_inc_joint"
  if isNumericDtype a.dtype && isNumericDtype b.dtype then
    some [describeRow "annual_inc" a, describeRow "annual_inc_joint" b]
  else none

/-- pandas `Series.value_counts()`: occurrence counts of each distinct
non-missing value (`dropna=True` default), sorted by descending count.  The
tie order among equal counts is unspecified in pandas; the embedding keeps
the first-appearance order of the keys via a stable sort. -/
def value_counts (cells : List (Option Cell)) : List (Cell × ℕ) :=
  let keys := (cells.filterMap id).dedup
  (keys.map (fun k => (k, cells.count (some k)))).insertionSort
    (fun a b => b.2 ≤ a.2)

/-- `BorrowerProfileEDA.categorical_freqs`: for `home_ownership`,
`addr_state`, `purpose`, the dict of `value_counts().head(max_levels)`. -/
def BorrowerProfileEDA.categorical_freqs (eda : BorrowerProfileEDA)
    (max_levels : ℕ) : Option (List (String × List (Cell × ℕ))) :=
  optTraverse (fun col => (eda.df.getCol col).map (fun c =>
    (col, (value_counts c.cells).take max_levels)))
    ["home_ownership", "addr_state", "purpose"]

/-- The non-missing numeric target values of the rows whose `col` cell is the
group key `k` (pandas `groupby(col)[target].mean()` drops NaN targets inside
a group; a non-numeric target cell would raise in pandas and is outside the
modelled scope). -/
def groupTargets (c t : Column) (k : Cell) : List ℚ :=
  ((c.cells.zip t.cells).filter (fun p => p.1 == some k)).filterMap
    (fun p => p.2.bind Cell.asNum)

/-- `BorrowerProfileEDA.default_rate_by_category`:
`df.groupby(col)[target_col].mean()`.  Group keys are the distinct
non-missing values of `col` (`dropna=True` default), sorted ascending
(`sort=True` default); the value per key is the mean of the target values of
the group's rows. -/
def BorrowerProfileEDA.default_rate_by_category (eda : BorrowerProfileEDA)
    (col : String) : Option (List (Cell × Option ℚ)) := do
  let c ← eda.df.getCol col
  let t ← eda.df.getCol eda.target_col
  let keys := ((c.cells.filterMap id).dedup).insertionSort Cell.le
  some (keys.map (fun k => (k, meanOpt (groupTargets c t k))))

/-- The tagged result of one borrower pipeline step. -/
inductive BResult where
  | structTable (rows : List StructRow)
  | incomeTable (rows : List DescRow)
  | freqTable (m : List (String × List (Cell × ℕ)))
  | rateTable (s : List (Cell × Option ℚ))
deriving DecidableEq

/-- `borrower_eda_steps`: the dict from step name to zero-argument callable. -/
def borrower_eda_steps (eda : BorrowerProfileEDA) :
    List (String × (Unit → Option BResult)) :=
  [("structure", fun _ => eda.structure_summary.map BResult.structTable),
   ("income", fun _ => eda.income_summary.map BResult.incomeTable),
   ("freqs", fun _ => (eda.categorical_freqs 10).map BResult.freqTable),
   ("default_by_home_ownership",
     fun _ => (eda.default_rate_by_category "home_ownership").map BResult.rateTable),
   ("default_by_purpose",
     fun _ => (eda.default_rate_by_category "purpose").map BResult.rateTable)]

/-- `run_borrower_eda_pipeline`: call every step in declaration order and
collect the results by step name; the first failing step aborts the whole
call (an uncaught exception), so no partial result dict is produced. -/
def run_borrower_eda_pipeline (eda : BorrowerProfileEDA) :
    Option (List (String × BResult)) :=
  optTraverse (fun p => (p.2 ()).map (fun r => (p.1, r))) (borrower_eda_steps eda)

/-! ## eda_credit_history.py -/

/-- The fixed credit-history numeric column universe `CREDIT_NUMERIC_COLS`
(29 columns). -/
def CREDIT_NUMERIC_COLS : List String :=
  ["dti", "dti_joint",
   "delinq_2yrs",
   "mths_since_last_delinq", "mths_since_last_record", "mths_since_last_major_derog",
   "open_acc", "total_acc", "pub_rec", "acc_now_delinq",
   "revol_bal", "revol_util", "total_rev_hi_lim",
   "tot_coll_amt", "tot_cur_bal", "total_bal_il",
   "open_acc_6m", "open_il_6m", "open_il_12m", "open_il_24m",
   "mths_since_rcnt_il",
   "open_rv_12m", "open_rv_24m",
   "max_bal_bc",
   "all_util",
   "inq_last_6mths", "inq_last_12m", "inq_fi",
   "collections_12_mths_ex_med"]

/-- The credit report object: the dataframe and the target column name. -/
structure CreditHistoryEDA where
  df : DataFrame
  target_col : String

/-- One row of `credit_structure_summary()`. -/
structure CreditRow where
  column : String
  dtype : Dtype
  n_missing : ℕ
  missing_pct : Option ℚ
  mean : Option ℚ
  std : RVal
deriving DecidableEq

/-- The dtypes of `df.select_dtypes(include='number')`: the dtypes of the
numeric columns present in the dataframe. -/
def DataFrame.numericDtypes (df : DataFrame) : List Dtype :=
  (df.cols.filter (fun p => isNumericDtype p.2.dtype)).map (fun p => p.2.dtype)

/-- The summary row built for one credit column against the dataframe's
detected numeric dtypes `dts`: mean and std are computed when the column's
dtype is among `dts` and are the NaN sentinel (`np.nan`) otherwise. -/
def creditRowOf (dts : List Dtype) (col : String) (c : Column) : CreditRow :=
  { column := col, dtype := c.dtype, n_missing := c.n_missing,
    missing_pct := c.missing_pct,
    mean := if c.dtype ∈ dts then meanOpt c.numVals else none,
    std := if c.dtype ∈ dts then stdRVal c.numVals else RVal.nan }

/-- `CreditHistoryEDA.credit_structure_summary`: one row per
`CREDIT_NUMERIC_COLS` column, in universe order. -/
def CreditHistoryEDA.credit_structure_summary (eda : CreditHistoryEDA) :
    Option (List CreditRow) :=
  optTraverse
    (fun col => (eda.df.getCol col).map (creditRowOf eda.df.numericDtypes col))
    CREDIT_NUMERIC_COLS

/-- The quantile edges computed by `pd.qcut(x, q=bins)`: numpy quantiles of
the sorted non-missing values at the probabilities 0, 1/bins, ..., 1
(`np.linspace(0, 1, bins + 1)`). -/
def qcutRawEdges (vals : List ℚ) (bins : ℕ) : List ℚ :=
  let s := vals.insertionSort (· ≤ ·)
  (List.range (bins + 1)).map
    (fun i : ℕ => quantileSorted s ((i : ℚ) / (bins : ℚ)))

/-- pandas `_bins_to_cuts` with `duplicates='drop'`: the edges are replaced
by `np.unique(edges)` (sorted distinct values) when duplicates are present,
except when there are exactly two edges. -/
def qcutEdges (vals : List ℚ) (bins : ℕ) : List ℚ :=
  let e := qcutRawEdges vals bins
  let u := (e.insertionSort (· ≤ ·)).dedup
  if u.length < e.length ∧ e.length ≠ 2 then u else e

/-- Bucket assignment of the `pd.cut` machinery over nondecreasing edges:
`searchsorted(edges, v, side='left')` (the number of edges below `v`),
bumped into the first bucket when `v` equals the first edge
(`include_lowest=True`), and missing when the position falls outside the
edges (below the first or above the last). -/
def bucketId (edges : List ℚ) (v : ℚ) : Option ℕ :=
  let i := edges.countP (fun e => e < v) +
    (if edges.head? = some v then 1 else 0)
  if i = 0 ∨ i = edges.length then none else some (i - 1)

/-- One row of `default_rate_by_bucket`. -/
structure BucketRow where
  bucket : ℚ × ℚ
  n_loans : ℕ
  default_rate : Option ℚ
deriving DecidableEq

/-- The rows paired with their bucket assignment and aggregated per bucket,
as `pd.qcut(df[col], q=bins, duplicates='drop')` followed by
`groupby(buckets)[target].agg(n_loans="count", default_rate="mean")` does:
for each of the `len(edges) - 1` bucket intervals in order, the `count` and
`mean` aggregations of the target over the rows assigned to that bucket.
With the historical pandas default `observed=False` the grouped result has
one row per bucket interval (empty buckets included, with count 0 and NaN
mean); rows whose `col` cell is missing belong to no bucket and are
excluded.  `n_loans` is the `count` aggregation: the number of non-missing
target cells in the bucket.  An all-missing column (for which the pandas
quantile edges are all NaN) is outside the modelled scope. -/
def bucketRowsOf (c t : Column) (bins : ℕ) : List BucketRow :=
  let edges := qcutEdges c.numVals bins
  let pairs := c.cells.zip t.cells
  (List.range (edges.length - 1)).map (fun j =>
    let grp := pairs.filter
      (fun p => (p.1.bind Cell.asNum).bind (bucketId edges) == some j)
    { bucket := (edges.getD j 0, edges.getD (j + 1) 0),
      n_loans := grp.countP (fun p => p.2.isSome),
      default_rate := meanOpt (grp.filterMap (fun p => p.2.bind Cell.asNum)) })

/-- `CreditHistoryEDA.default_rate_by_bucket`: fetch the bucket column and
the target column (a missing one raises) and aggregate the quantile
buckets. -/
def CreditHistoryEDA.default_rate_by_bucket (eda : CreditHistoryEDA)
    (col : String) (bins : ℕ) : Option (List BucketRow) := do
  let c ← eda.df.getCol col
  let t ← eda.df.getCol eda.target_col
  some (bucketRowsOf c t bins)

/-- Pearson correlation of two series (pairwise complete: rows where either
value is missing are dropped), in exact arithmetic: NaN when a centered sum
of squares vanishes (constant series, or fewer than two pairs), otherwise
the real number sxy / √(sxx · syy) represented symbolically. -/
def corrQ (xs ys : List (Option ℚ)) : RVal :=
  let ps := (xs.zip ys).filterMap
    (fun p => p.1.bind (fun a => p.2.map (fun b => (a, b))))
  let n : ℚ := (ps.length : ℚ)
  let xbar := (ps.map Prod.fst).sum / n
  let ybar := (ps.map Prod.snd).sum / n
  let sxx := (ps.map (fun p => (p.1 - xbar) ^ 2)).sum
  let syy := (ps.map (fun p => (p.2 - ybar) ^ 2)).sum
  let sxy := (ps.map (fun p => (p.1 - xbar) * (p.2 - ybar))).sum
  if sxx = 0 ∨ syy = 0 then RVal.nan else RVal.divSqrt sxy (sxx * syy)

/-- `CreditHistoryEDA.correlation_with_default`: for each universe column in
order, `df[col].corr(df[target_col])`, collected as a Series indexed by
`CREDIT_NUMERIC_COLS`. -/
def CreditHistoryEDA.correlation_with_default (eda : CreditHistoryEDA) :
    Option (List (String × RVal)) :=
  optTraverse (fun col => do
    let c ← eda.df.getCol col
    let t ← eda.df.getCol eda.target_col
    some (col, corrQ (c.cells.map (fun x => x.bind Cell.asNum))
                     (t.cells.map (fun x => x.bind Cell.asNum))))
    CREDIT_NUMERIC_COLS

/-- The tagged result of one credit report step. -/
inductive CResult where
  | structTable (rows : List CreditRow)
  | bucketTable (rows : List BucketRow)
  | corrSeries (s : List (String × RVal))
deriving DecidableEq

/-- `credit_history_report`: the four steps in declaration order, collected
by name; the first failing step aborts the whole call. -/
def credit_history_report (eda : CreditHistoryEDA) :
    Option (List (String × CResult)) :=
  optTraverse (fun p => (p.2 ()).map (fun r => (p.1, r)))
    [("structure_summary",
       fun _ => eda.credit_structure_summary.map CResult.structTable),
     ("dti_buckets",
       fun _ => (eda.default_rate_by_bucket "dti" 5).map CResult.bucketTable),
     ("revol_util_buckets",
       fun _ => (eda.default_rate_by_bucket "revol_util" 5).map CResult.bucketTable),
     ("correlation_with_default",
       fun _ => eda.correlation_with_default.map CResult.corrSeries)]

/-! ## Report methods as state transformers

None of the pandas operations used by the two modules mutates its input
(`isna`, `nunique`, `describe`, `value_counts`, `groupby`, `qcut`, `corr`,
`mean`, `std` all return fresh objects, and neither module assigns to
`self.df` or uses an `inplace` operation), so each method is faithfully a
pure function of the held dataframe.  To state that calling a method leaves
the dataset untouched and that a second call returns the same result, each
method is wrapped as an explicit state transformer on the dataframe. -/

/-- A report method of either module, with its arguments. -/
inductive ReportMethod where
  | b_structure
  | b_income
  | b_freqs (max_levels : ℕ)
  | b_rate (col : String)
  | b_pipeline
  | c_structure
  | c_bucket (col : String) (bins : ℕ)
  | c_corr
  | c_report

/-- The result of a report method call. -/
inductive MethodResult where
  | bStruct (r : Option (List StructRow))
  | bIncome (r : Option (List DescRow))
  | bFreqs (r : Option (List (String × List (Cell × ℕ))))
  | bRate (r : Option (List (Cell × Option ℚ)))
  | bPipe (r : Option (List (String × BResult)))
  | cStruct (r : Option (List CreditRow))
  | cBucket (r : Option (List BucketRow))
  | cCorr (r : Option (List (String × RVal)))
  | cPipe (r : Option (List (String × CResult)))

/-- Run one report method against the dataframe state, returning the result
together with the dataframe state after the call. -/
def run_method (m : ReportMethod) (df : DataFrame) (target_col : String) :
    MethodResult × DataFrame :=
  match m with
  | ReportMethod.b_structure =>
      (MethodResult.bStruct (BorrowerProfileEDA.mk df target_col).structure_summary, df)
  | ReportMethod.b_income =>
      (MethodResult.bIncome (BorrowerProfileEDA.mk df target_col).income_summary, df)
  | ReportMethod.b_freqs k =>
      (MethodResult.bFreqs ((BorrowerProfileEDA.mk df target_col).categorical_freqs k), df)
  | ReportMethod.b_rate col =>
      (MethodResult.bRate ((BorrowerProfileEDA.mk df target_col).default_rate_by_category col), df)
  | ReportMethod.b_pipeline =>
      (MethodResult.bPipe (run_borrower_eda_pipeline (BorrowerProfileEDA.mk df target_col)), df)
  | ReportMethod.c_structure =>
      (MethodResult.cStruct (CreditHistoryEDA.mk df target_col).credit_structure_summary, df)
  | ReportMethod.c_bucket col bins =>
      (MethodResult.cBucket ((CreditHistoryEDA.mk df target_col).default_rate_by_bucket col bins), df)
  | ReportMethod.c_corr =>
      (MethodResult.cCorr (CreditHistoryEDA.mk df target_col).correlation_with_default, df)
  | ReportMethod.c_report =>
      (MethodResult.cPipe (credit_history_report (CreditHistoryEDA.mk df target_col)), df)

/-! ## Concrete dataframes used to exercise the reports -/

/-- A string (object-dtype) column. -/
def strColOf (vs : List (Option String)) : Column :=
  ⟨Dtype.object, vs.map (fun o => o.map Cell.str)⟩

/-- A float64 column. -/
def numColOf (vs : List (Option ℚ)) : Column :=
  ⟨Dtype.float64, vs.map (fun o => o.map Cell.num)⟩

/-- A two-row dataframe holding every borrower-universe column plus the
target column. -/
def borrowerDF : DataFrame :=
  ⟨[("id", numColOf [some 1, some 2]),
    ("member_id", numColOf [some 1, some 2]),
    ("emp_title", strColOf [some "eng", none]),
    ("emp_length", strColOf [some "1y", some "2y"]),
    ("home_ownership", strColOf [some "RENT", some "OWN"]),
    ("annual_inc", numColOf [some 50000, some 60000]),
    ("annual_inc_joint", numColOf [none, some 90000]),
    ("verification_status", strColOf [some "V", some "NV"]),
    ("verification_status_joint", strColOf [none, some "V"]),
    ("zip_code", strColOf [some "100", some "200"]),
    ("addr_state", strColOf [some "NY", some "CA"]),
    ("purpose", strColOf [some "car", some "house"]),
    ("title", strColOf [some "t1", some "t2"]),
    ("desc", strColOf [none, none]),
    ("issue_d", strColOf [some "2019", some "2020"]),
    ("pymnt_plan", strColOf [some "n", some "n"]),
    ("policy_code", numColOf [some 1, some 1]),
    ("url", strColOf [some "u1", some "u2"]),
    ("loan_status", numColOf [some 0, some 1])], 2⟩

/-- The borrower report object over `borrowerDF`. -/
def borrowerEDA : BorrowerProfileEDA := ⟨borrowerDF, "loan_status"⟩

/-- A three-row frame whose categorical columns are mostly missing, so that
missing values outnumber the non-missing ones. -/
def sparseDF : DataFrame :=
  ⟨[("home_ownership", strColOf [some "RENT", none, none]),
    ("addr_state", strColOf [none, none, some "CA"]),
    ("purpose", strColOf [none, none, none]),
    ("loan_status", numColOf [some 0, some 1, some 0])], 3⟩

/-- The borrower report object over `sparseDF`. -/
def sparseEDA : BorrowerProfileEDA := ⟨sparseDF, "loan_status"⟩

/-- A two-row dataframe holding every credit-universe column plus the target
column. -/
def creditDF : DataFrame :=
  ⟨[("dti", numColOf [some 0, some 1]),
    ("dti_joint", numColOf [some 1, some 2]),
    ("delinq_2yrs", numColOf [some 0, some 0]),
    ("mths_since_last_delinq", numColOf [none, some 3]),
    ("mths_since_last_record", numColOf [none, none]),
    ("mths_since_last_major_derog", numColOf [some 4, none]),
    ("open_acc", numColOf [some 2, some 5]),
    ("total_acc", numColOf [some 7, some 9]),
    ("pub_rec", numColOf [some 0, some 1]),
    ("acc_now_delinq", numColOf [some 0, some 0]),
    ("revol_bal", numColOf [some 100, some 200]),
    ("revol_util", numColOf [some 1, some 2]),
    ("total_rev_hi_lim", numColOf [some 300, some 400]),
    ("tot_coll_amt", numColOf [some 0, some 10]),
    ("tot_cur_bal", numColOf [some 500, some 600]),
    ("total_bal_il", numColOf [some 50, some 60]),
    ("open_acc_6m", numColOf [some 1, some 1]),
    ("open_il_6m", numColOf [some 0, some 2]),
    ("open_il_12m", numColOf [some 1, some 0]),
    ("open_il_24m", numColOf [some 2, some 2]),
    ("mths_since_rcnt_il", numColOf [some 6, some 8]),
    ("open_rv_12m", numColOf [some 1, some 3]),
    ("open_rv_24m", numColOf [some 2, some 4]),
    ("max_bal_bc", numColOf [some 700, some 800]),
    ("all_util", numColOf [some 3, some 4]),
    ("inq_last_6mths", numColOf [some 0, some 1]),
    ("inq_last_12m", numColOf [some 1, some 2]),
    ("inq_fi", numColOf [some 0, some 0]),
    ("collections_12_mths_ex_med", numColOf [some 0, some 0]),
    ("loan_status", numColOf [some 0, some 1])], 2⟩

/-- The credit report object over `creditDF`. -/
def creditEDA : CreditHistoryEDA := ⟨creditDF, "loan_status"⟩

/-- A credit report object whose `dti` column has three distinct values but
collapsing quantile edges: `pd.qcut` on it with 2 requested buckets yields a
single bucket. -/
def qcutEDA : CreditHistoryEDA :=
  ⟨⟨[("dti", numColOf [some 0, some 0, some 0, some 1, some 2]),
     ("loan_status", numColOf [some 0, some 0, some 0, some 0, some 1])], 5⟩,
   "loan_status"⟩

/-! ## General lemmas about the embedding -/

theorem optTraverse_some {α β : Type} (f : α → Option β) (l : List α)
    (h : ∀ a ∈ l, (f a).isSome = true) :
    ∃ r, optTraverse f l = some r ∧
      List.Forall₂ (fun a b => f a = some b) l r := by
  induction l with
  | nil => exact ⟨[], rfl, List.Forall₂.nil⟩
  | cons a t ih =>
    obtain ⟨b, hb⟩ := Option.isSome_iff_exists.mp (h a (List.mem_cons_self a t))
    obtain ⟨r, hr, hfr⟩ := ih (fun x hx => h x (List.mem_cons_of_mem a hx))
    refine ⟨b :: r, ?_, List.Forall₂.cons hb hfr⟩
    simp [optTraverse, hb, hr]

theorem optTraverse_none {α β : Type} (f : α → Option β) {l : List α} {a : α}
    (ha : a ∈ l) (hfa : f a = none) : optTraverse f l = none := by
  induction l with
  | nil => cases ha
  | cons x t ih =>
    rcases List.mem_cons.mp ha with h | h
    · subst h; simp [optTraverse, hfa]
    · cases hfx : f x <;> simp [optTraverse, hfx, ih h]

theorem forall₂_map_eq {α β : Type} {g : β → α} {l : List α} {r : List β}
    (h : List.Forall₂ (fun a b => g b = a) l r) : r.map g = l := by
  induction h with
  | nil => rfl
  | cons h₁ _ ih => simp [ih, h₁]

theorem forall₂_mem_right {α β : Type} {R : α → β → Prop} {l : List α}
    {r : List β} {b : β} (h : List.Forall₂ R l r) (hb : b ∈ r) :
    ∃ a ∈ l, R a b := by
  induction h with
  | nil => cases hb
  | cons h₁ h₂ ih =>
    rcases List.mem_cons.mp hb with rfl | hb'
    · exact ⟨_, List.mem_cons_self _ _, h₁⟩
    · obtain ⟨a, ha, hR⟩ := ih hb'
      exact ⟨a, List.mem_cons_of_mem _ ha, hR⟩

theorem getCol_mem {df : DataFrame} {name : String} {c : Column}
    (h : df.getCol name = some c) : (name, c) ∈ df.cols := by
  unfold DataFrame.getCol at h
  cases hf : df.cols.find? (fun p => p.1 == name) with
  | none => rw [hf] at h; cases h
  | some p =>
    rw [hf] at h
    have hm := List.mem_of_find?_eq_some hf
    have hp := List.find?_some hf
    simp only [Option.map_some', Option.some_inj] at h
    rw [beq_iff_eq] at hp
    have : p = (name, c) := by
      cases p with
      | mk a b => simp_all
    rwa [this] at hm

/-! ## Claim theorems -/

/-- C2: for every dataset containing all borrower-universe columns,
`structure_summary()` returns exactly one row per borrower-universe column,
in universe-list order, and in every row `missing_pct` equals `n_missing`
divided by the total row count of the dataset (the row count must be
positive for the quotient to be meaningful: pandas reports NaN on an empty
frame). -/
theorem c2_structure_summary (eda : BorrowerProfileEDA)
    (hwf : eda.df.wf) (hn : 0 < eda.df.nrows)
    (hcols : ∀ col ∈ BORROWER_COLS, (eda.df.getCol col).isSome = true) :
    ∃ rows, eda.structure_summary = some rows ∧
      rows.map StructRow.column = BORROWER_COLS ∧
      ∀ r ∈ rows,
        r.missing_pct = some ((r.n_missing : ℚ) / (eda.df.nrows : ℚ)) := by
  obtain ⟨rows, hr, hfr⟩ := optTraverse_some
    (fun col => (eda.df.getCol col).map (structRowOf col)) BORROWER_COLS
    (fun col hc => by
      cases hg : eda.df.getCol col with
      | none => exact absurd (hcols col hc) (by simp [hg])
      | some c => simp [hg])
  refine ⟨rows, hr, ?_, ?_⟩
  · refine forall₂_map_eq (hfr.imp ?_)
    intro col r hcr
    obtain ⟨c, _, hmk⟩ := Option.map_eq_some'.mp hcr
    rw [← hmk]; rfl
  · intro r hrm
    obtain ⟨col, _, hfc⟩ := forall₂_mem_right hfr hrm
    obtain ⟨c, hc, hmk⟩ := Option.map_eq_some'.mp hfc
    have hmem := getCol_mem hc
    have hlen := (hwf.2 _ hmem).1
    subst hmk
    show c.missing_pct = some _
    unfold Column.missing_pct
    rw [hlen, if_neg (Nat.pos_iff_ne_zero.mp hn)]
    rfl

/-- Witness for C2 at a concrete two-row dataframe. -/
theorem c2_witness :
    (BorrowerProfileEDA.structure_summary borrowerEDA).isSome = true := by
  obtain ⟨rows, hr, -, -⟩ :=
    c2_structure_summary borrowerEDA (by decide) (by decide) (by decide)
  rw [hr]; rfl

theorem optTraverse_eq_some {α β : Type} {f : α → Option β} {l : List α}
    {r : List β} (h : optTraverse f l = some r) :
    List.Forall₂ (fun a b => f a = some b) l r := by
  induction l generalizing r with
  | nil =>
    simp only [optTraverse, Option.some_inj] at h
    subst h; exact List.Forall₂.nil
  | cons a t ih =>
    unfold optTraverse at h
    cases hfa : f a <;> rw [hfa] at h
    · cases h
    · cases hft : optTraverse f t <;> rw [hft] at h
      · cases h
      · simp only [Option.some_inj] at h
        subst h
        exact List.Forall₂.cons hfa (ih hft)

theorem forall₂_mem_left {α β : Type} {R : α → β → Prop} {l : List α}
    {r : List β} {a : α} (h : List.Forall₂ R l r) (ha : a ∈ l) :
    ∃ b ∈ r, R a b := by
  induction h with
  | nil => cases ha
  | cons h₁ h₂ ih =>
    rcases List.mem_cons.mp ha with rfl | ha'
    · exact ⟨_, List.mem_cons_self _ _, h₁⟩
    · obtain ⟨b, hb, hR⟩ := ih ha'
      exact ⟨b, List.mem_cons_of_mem _ hb, hR⟩

/-- `value_counts` output is sorted by descending count. -/
theorem value_counts_sorted (cells : List (Option Cell)) :
    List.Sorted (fun a b : Cell × ℕ => b.2 ≤ a.2) (value_counts cells) := by
  unfold value_counts
  exact @List.sorted_insertionSort _ (fun a b : Cell × ℕ => b.2 ≤ a.2) _
    ⟨fun a b => le_total b.2 a.2⟩ ⟨fun a b c hab hbc => le_trans hbc hab⟩ _

/-- `value_counts` output is a permutation of the keyed counts of the
distinct non-missing values. -/
theorem value_counts_perm (cells : List (Option Cell)) :
    (value_counts cells).Perm
      (((cells.filterMap id).dedup).map (fun k => (k, cells.count (some k)))) :=
  List.perm_insertionSort _ _

/-- C4: for every dataset containing `home_ownership`, `addr_state` and
`purpose` and every level cap `k`, `categorical_freqs(max_levels=k)` returns
one entry per requested column, each holding at most `k` (value, count)
pairs sorted by descending frequency. -/
theorem c4_categorical_freqs (eda : BorrowerProfileEDA) (k : ℕ)
    (hcols : ∀ col ∈ ["home_ownership", "addr_state", "purpose"],
      (eda.df.getCol col).isSome = true) :
    ∃ m, eda.categorical_freqs k = some m ∧
      m.map Prod.fst = ["home_ownership", "addr_state", "purpose"] ∧
      ∀ p ∈ m, p.2.length ≤ k ∧
        List.Sorted (fun a b : Cell × ℕ => b.2 ≤ a.2) p.2 := by
  obtain ⟨m, hm, hfm⟩ := optTraverse_some
    (fun col => (eda.df.getCol col).map (fun c =>
      (col, (value_counts c.cells).take k)))
    ["home_ownership", "addr_state", "purpose"]
    (fun col hc => by
      cases hg : eda.df.getCol col with
      | none => exact absurd (hcols col hc) (by simp [hg])
      | some c => simp [hg])
  refine ⟨m, hm, ?_, ?_⟩
  · refine forall₂_map_eq (hfm.imp ?_)
    intro col p hcp
    obtain ⟨c, _, hmk⟩ := Option.map_eq_some'.mp hcp
    rw [← hmk]
  · intro p hp
    obtain ⟨col, _, hfc⟩ := forall₂_mem_right hfm hp
    obtain ⟨c, hc, hmk⟩ := Option.map_eq_some'.mp hfc
    subst hmk
    constructor
    · exact List.length_take_le k _
    · exact List.Pairwise.sublist (List.take_sublist _ _) (value_counts_sorted _)

/-- Witness for C4 at a concrete two-row dataframe with level cap 1. -/
theorem c4_witness :
    (BorrowerProfileEDA.categorical_freqs borrowerEDA 1).isSome = true := by
  obtain ⟨m, hm, -, -⟩ := c4_categorical_freqs borrowerEDA 1 (by decide)
  rw [hm]; rfl

/-- C10: `categorical_freqs` counts only non-missing values: the entry list
of a column is the `k`-prefix of its `value_counts`, whose keys are exactly
the distinct non-missing values of the column (missing cells never appear as
a level) and whose counts are the occurrence counts. -/
theorem c10_freqs_exclude_missing (eda : BorrowerProfileEDA) (k : ℕ)
    (col : String) (c : Column)
    (hcol : col ∈ ["home_ownership", "addr_state", "purpose"])
    (hc : eda.df.getCol col = some c)
    (m : List (String × List (Cell × ℕ)))
    (hm : eda.categorical_freqs k = some m) :
    (col, (value_counts c.cells).take k) ∈ m ∧
      ((value_counts c.cells).map Prod.fst).Perm (c.cells.filterMap id).dedup ∧
      ∀ e ∈ value_counts c.cells, e.2 = c.cells.count (some e.1) := by
  have hfm := optTraverse_eq_some hm
  refine ⟨?_, ?_, ?_⟩
  · obtain ⟨b, hb, hfb⟩ := forall₂_mem_left hfm hcol
    rw [hc] at hfb
    simp only [Option.map_some', Option.some_inj] at hfb
    rwa [← hfb] at hb
  · have h1 := (value_counts_perm c.cells).map Prod.fst
    refine h1.trans ?_
    rw [List.map_map]
    have h2 : (Prod.fst ∘ fun k => (k, c.cells.count (some k))) = id := rfl
    rw [h2, List.map_id]
  · intro e he
    have := (value_counts_perm c.cells).mem_iff.mp he
    obtain ⟨kk, -, hkk⟩ := List.mem_map.mp this
    rw [← hkk]

/-- Witness for C10 on a dataframe whose missing values outnumber the
non-missing ones in each categorical column. -/
theorem c10_witness :
    ("home_ownership",
      (value_counts (strColOf [some "RENT", none, none]).cells).take 5) ∈
      ((BorrowerProfileEDA.categorical_freqs sparseEDA 5).getD []) := by
  have h := c10_freqs_exclude_missing sparseEDA 5 "home_ownership"
    (strColOf [some "RENT", none, none]) (by decide) rfl
    ((BorrowerProfileEDA.categorical_freqs sparseEDA 5).getD []) rfl
  exact h.1

/-- A list of zeros and ones has a sum between 0 and its length. -/
theorem sum_bounds_zero_one (xs : List ℚ) (h : ∀ q ∈ xs, q = 0 ∨ q = 1) :
    0 ≤ xs.sum ∧ xs.sum ≤ (xs.length : ℚ) := by
  induction xs with
  | nil => simp
  | cons a t ih =>
    obtain ⟨h1, h2⟩ := ih (fun q hq => h q (List.mem_cons_of_mem _ hq))
    rcases h a (List.mem_cons_self _ _) with rfl | rfl <;>
      simp only [List.sum_cons, List.length_cons] <;> push_cast <;>
      constructor <;> linarith

/-- The mean of a nonempty list of zeros and ones lies in [0, 1]. -/
theorem mean_zero_one (xs : List ℚ) (hne : xs ≠ [])
    (h : ∀ q ∈ xs, q = 0 ∨ q = 1) :
    ∃ m, meanOpt xs = some m ∧ 0 ≤ m ∧ m ≤ 1 := by
  have hl : xs.length ≠ 0 := fun hc => hne (List.length_eq_zero.mp hc)
  have hpos : (0 : ℚ) < (xs.length : ℚ) := by
    exact_mod_cast Nat.pos_of_ne_zero hl
  obtain ⟨h1, h2⟩ := sum_bounds_zero_one xs h
  refine ⟨xs.sum / (xs.length : ℚ), by simp [meanOpt, hl], ?_, ?_⟩
  · exact div_nonneg h1 (le_of_lt hpos)
  · exact (div_le_one hpos).mpr h2

/-- Every value extracted by `groupTargets` comes from a target cell. -/
theorem groupTargets_sub (c t : Column) (k : Cell) :
    ∀ q ∈ groupTargets c t k, ∃ x ∈ t.cells, x.bind Cell.asNum = some q := by
  intro q hq
  obtain ⟨p, hp, hf⟩ := List.mem_filterMap.mp hq
  have hz := (List.mem_filter.mp hp).1
  exact ⟨p.2, (List.of_mem_zip hz).2, hf⟩

/-- An element of the left list of a zip of equal-length lists appears in
the zip, paired with some element of the right list. -/
theorem zip_mem_of_mem_left {α β : Type} :
    ∀ (l1 : List α) (l2 : List β) (a : α), l1.length = l2.length →
      a ∈ l1 → ∃ b ∈ l2, (a, b) ∈ l1.zip l2 := by
  intro l1
  induction l1 with
  | nil => intro l2 a _ ha; cases ha
  | cons x t ih =>
    intro l2 a hlen ha
    cases l2 with
    | nil => cases hlen
    | cons y t2 =>
      rcases List.mem_cons.mp ha with rfl | ha'
      · exact ⟨y, List.mem_cons_self _ _, List.mem_cons_self _ _⟩
      · obtain ⟨b, hb, hmem⟩ := ih t2 a (Nat.succ_injective hlen) ha'
        exact ⟨b, List.mem_cons_of_mem _ hb, List.mem_cons_of_mem _ hmem⟩

/-- When `k` occurs in `col` and no target cell is missing, the group of `k`
is nonempty. -/
theorem groupTargets_ne_nil (c t : Column) (k : Cell)
    (hlen : c.cells.length = t.cells.length)
    (htv : ∀ x ∈ t.cells, x = some (Cell.num 0) ∨ x = some (Cell.num 1))
    (hk : some k ∈ c.cells) : groupTargets c t k ≠ [] := by
  obtain ⟨x, hx, hmem⟩ := zip_mem_of_mem_left c.cells t.cells (some k) hlen hk
  have hfil : (some k, x) ∈
      (c.cells.zip t.cells).filter (fun p => p.1 == some k) :=
    List.mem_filter.mpr ⟨hmem, by simp⟩
  rcases htv x hx with hx1 | hx1
  · exact List.ne_nil_of_mem (List.mem_filterMap.mpr
      ⟨(some k, x), hfil, by rw [hx1]; rfl⟩)
  · exact List.ne_nil_of_mem (List.mem_filterMap.mpr
      ⟨(some k, x), hfil, by rw [hx1]; rfl⟩)

/-- C3: for every dataset containing `col` and a numeric 0/1-encoded target
column, `default_rate_by_category(col)` returns a mapping whose key set is
the set of distinct non-missing values of `col`, whose value at each key is
the mean of the target over the key's rows, with every value in [0, 1]. -/
theorem c3_default_rate_by_category (eda : BorrowerProfileEDA) (col : String)
    (c t : Column)
    (hc : eda.df.getCol col = some c)
    (ht : eda.df.getCol eda.target_col = some t)
    (hlen : c.cells.length = t.cells.length)
    (htv : ∀ x ∈ t.cells, x = some (Cell.num 0) ∨ x = some (Cell.num 1)) :
    ∃ l, eda.default_rate_by_category col = some l ∧
      (∀ k : Cell, (∃ v, (k, v) ∈ l) ↔ some k ∈ c.cells) ∧
      ∀ p ∈ l, p.2 = meanOpt (groupTargets c t p.1) ∧
        ∃ q, p.2 = some q ∧ 0 ≤ q ∧ q ≤ 1 := by
  have hkeys : ∀ k : Cell,
      k ∈ ((c.cells.filterMap id).dedup).insertionSort Cell.le ↔
        some k ∈ c.cells := by
    intro k
    rw [(List.perm_insertionSort Cell.le _).mem_iff, List.mem_dedup,
      List.mem_filterMap]
    simp
  refine ⟨(((c.cells.filterMap id).dedup).insertionSort Cell.le).map
    (fun k => (k, meanOpt (groupTargets c t k))), ?_, ?_, ?_⟩
  · unfold BorrowerProfileEDA.default_rate_by_category
    rw [hc, ht]
    rfl
  · intro k
    rw [← hkeys k]
    constructor
    · rintro ⟨v, hv⟩
      obtain ⟨k', hk', hpair⟩ := List.mem_map.mp hv
      cases hpair
      exact hk'
    · intro hk
      exact ⟨_, List.mem_map.mpr ⟨k, hk, rfl⟩⟩
  · intro p hp
    obtain ⟨k, hk, hpair⟩ := List.mem_map.mp hp
    subst hpair
    refine ⟨rfl, ?_⟩
    have hne := groupTargets_ne_nil c t k hlen htv ((hkeys k).mp hk)
    have hq : ∀ q ∈ groupTargets c t k, q = 0 ∨ q = 1 := by
      intro q hq
      obtain ⟨x, hx, hbq⟩ := groupTargets_sub c t k q hq
      rcases htv x hx with rfl | rfl
      · left; simpa [Cell.asNum] using hbq.symm
      · right; simpa [Cell.asNum] using hbq.symm
    exact mean_zero_one _ hne hq

/-- Witness for C3 at a concrete two-row dataframe. -/
theorem c3_witness :
    (BorrowerProfileEDA.default_rate_by_category borrowerEDA
      "home_ownership").isSome = true := by
  obtain ⟨l, hl, -, -⟩ := c3_default_rate_by_category borrowerEDA
    "home_ownership" (strColOf [some "RENT", some "OWN"])
    (numColOf [some 0, some 1]) rfl rfl (by decide) (by decide)
  rw [hl]; rfl

/-- C5: when all five borrower steps succeed, the pipeline returns exactly
the five step names, in declaration order, each mapped to the result of the
corresponding producer — no more and no fewer. -/
theorem c5_run_borrower_eda_pipeline (eda : BorrowerProfileEDA)
    (s : List StructRow) (i : List DescRow)
    (f : List (String × List (Cell × ℕ))) (h p : List (Cell × Option ℚ))
    (hs : eda.structure_summary = some s)
    (hi : eda.income_summary = some i)
    (hf : eda.categorical_freqs 10 = some f)
    (hh : eda.default_rate_by_category "home_ownership" = some h)
    (hp : eda.default_rate_by_category "purpose" = some p) :
    run_borrower_eda_pipeline eda =
      some [("structure", BResult.structTable s),
            ("income", BResult.incomeTable i),
            ("freqs", BResult.freqTable f),
            ("default_by_home_ownership", BResult.rateTable h),
            ("default_by_purpose", BResult.rateTable p)] := by
  unfold run_borrower_eda_pipeline borrower_eda_steps
  simp [optTraverse, hs, hi, hf, hh, hp]

/-- Witness for C5 at a concrete two-row dataframe on which every step
succeeds. -/
theorem c5_witness :
    (run_borrower_eda_pipeline borrowerEDA).isSome = true := by
  rw [c5_run_borrower_eda_pipeline borrowerEDA _ _ _ _ _ rfl rfl rfl rfl rfl]
  rfl

/-- C8: a missing universe column, target column, or requested
bucket/category column makes the report method that touches it fail with the
propagated missing-key error (no default value is substituted), and in a
pipeline call that failure aborts the whole pipeline: no result mapping is
produced at all.  Covered cases: a missing borrower-universe column fails
`structure_summary` and the borrower pipeline; a missing category column or
target column fails `default_rate_by_category`, and the missing target also
aborts the borrower pipeline (its `default_by_home_ownership` step touches
the target); a missing credit-universe column fails
`credit_structure_summary` and `correlation_with_default` and the credit
report; a missing bucket column or target column fails
`default_rate_by_bucket` and `correlation_with_default`, and the missing
target also aborts the credit report. -/
theorem c8_missing_column_aborts :
    (∀ (eda : BorrowerProfileEDA) (col : String), col ∈ BORROWER_COLS →
      eda.df.getCol col = none →
      eda.structure_summary = none ∧ run_borrower_eda_pipeline eda = none) ∧
    (∀ (eda : BorrowerProfileEDA) (col : String), eda.df.getCol col = none →
      eda.default_rate_by_category col = none) ∧
    (∀ (eda : BorrowerProfileEDA) (col : String),
      eda.df.getCol eda.target_col = none →
      eda.default_rate_by_category col = none) ∧
    (∀ (eda : CreditHistoryEDA) (col : String), col ∈ CREDIT_NUMERIC_COLS →
      eda.df.getCol col = none →
      eda.credit_structure_summary = none ∧
      eda.correlation_with_default = none ∧
      credit_history_report eda = none) ∧
    (∀ (eda : CreditHistoryEDA) (col : String) (bins : ℕ),
      eda.df.getCol col = none →
      eda.default_rate_by_bucket col bins = none) ∧
    (∀ (eda : CreditHistoryEDA), eda.df.getCol eda.target_col = none →
      credit_history_report eda = none) ∧
    (∀ (eda : BorrowerProfileEDA), eda.df.getCol eda.target_col = none →
      run_borrower_eda_pipeline eda = none) ∧
    (∀ (eda : CreditHistoryEDA) (col : String) (bins : ℕ),
      eda.df.getCol eda.target_col = none →
      eda.default_rate_by_bucket col bins = none) ∧
    (∀ (eda : CreditHistoryEDA), eda.df.getCol eda.target_col = none →
      eda.correlation_with_default = none) := by
  refine ⟨?_, ?_, ?_, ?_, ?_, ?_, ?_, ?_, ?_⟩
  · intro eda col hmem hnone
    have hss : eda.structure_summary = none :=
      optTraverse_none _ hmem (by rw [hnone]; rfl)
    refine ⟨hss, ?_⟩
    unfold run_borrower_eda_pipeline borrower_eda_steps
    simp [optTraverse, hss]
  · intro eda col hnone
    unfold BorrowerProfileEDA.default_rate_by_category
    rw [hnone]
    rfl
  · intro eda col hnone
    unfold BorrowerProfileEDA.default_rate_by_category
    cases hg : eda.df.getCol col <;> simp [hg, hnone]
  · intro eda col hmem hnone
    have hcs : eda.credit_structure_summary = none :=
      optTraverse_none _ hmem (by rw [hnone]; rfl)
    have hco : eda.correlation_with_default = none :=
      optTraverse_none _ hmem (by rw [hnone]; rfl)
    refine ⟨hcs, hco, ?_⟩
    unfold credit_history_report
    simp [optTraverse, hcs]
  · intro eda col bins hnone
    unfold CreditHistoryEDA.default_rate_by_bucket
    rw [hnone]
    rfl
  · intro eda hnone
    have hbucket : eda.default_rate_by_bucket "dti" 5 = none := by
      unfold CreditHistoryEDA.default_rate_by_bucket
      cases hg : eda.df.getCol "dti" <;> simp [hg, hnone]
    unfold credit_history_report
    cases hg : eda.credit_structure_summary <;> simp [optTraverse, hg, hbucket]
  · intro eda hnone
    have hrate : eda.default_rate_by_category "home_ownership" = none := by
      unfold BorrowerProfileEDA.default_rate_by_category
      cases hg : eda.df.getCol "home_ownership" <;> simp [hg, hnone]
    unfold run_borrower_eda_pipeline borrower_eda_steps
    cases h1 : eda.structure_summary <;> cases h2 : eda.income_summary <;>
      cases h3 : eda.categorical_freqs 10 <;>
      simp [optTraverse, h1, h2, h3, hrate]
  · intro eda col bins hnone
    unfold CreditHistoryEDA.default_rate_by_bucket
    cases hg : eda.df.getCol col <;> simp [hg, hnone]
  · intro eda hnone
    unfold CreditHistoryEDA.correlation_with_default
    refine optTraverse_none _ (show "dti" ∈ CREDIT_NUMERIC_COLS by decide) ?_
    cases hg : eda.df.getCol "dti" <;> simp [hg, hnone]

/-- Witness for C8: on an empty dataframe (every column missing) the
borrower structure summary fails and the borrower pipeline aborts with no
result mapping. -/
theorem c8_witness :
    BorrowerProfileEDA.structure_summary ⟨⟨[], 0⟩, "loan_status"⟩ = none ∧
      run_borrower_eda_pipeline ⟨⟨[], 0⟩, "loan_status"⟩ = none :=
  c8_missing_column_aborts.1 ⟨⟨[], 0⟩, "loan_status"⟩ "id" (by decide) rfl

/-- C9: every report method of either module, run as a state transformer on
the dataframe, leaves the dataframe unchanged, and running it a second time
on the resulting state returns the same result: the reports neither mutate
the dataset nor depend on anything but it. -/
theorem c9_methods_pure (m : ReportMethod) (df : DataFrame)
    (target_col : String) :
    (run_method m df target_col).2 = df ∧
      (run_method m ((run_method m df target_col).2) target_col).1 =
        (run_method m df target_col).1 := by
  cases m <;> exact ⟨rfl, rfl⟩

/-- A column present in the dataframe has its dtype among the detected
numeric dtypes exactly when its dtype is numeric. -/
theorem numericDtypes_mem_iff {df : DataFrame} {name : String} {c : Column}
    (h : df.getCol name = some c) :
    c.dtype ∈ df.numericDtypes ↔ isNumericDtype c.dtype = true := by
  constructor
  · intro hm
    obtain ⟨p, hp, hdt⟩ := List.mem_map.mp hm
    have hnum := (List.mem_filter.mp hp).2
    rw [← hdt]
    exact hnum
  · intro hn
    exact List.mem_map.mpr ⟨(name, c), List.mem_filter.mpr ⟨getCol_mem h, hn⟩, rfl⟩

/-- C7 (amended): for every dataset containing all 29 credit-numeric
universe columns (the source universe has 29 columns, not 28 as the spec
states), `credit_structure_summary()` returns exactly one row per universe
column in universe order; in each row, if the column's dtype is numeric then
`mean` and `std` are the column's mean and standard deviation over its
non-missing values, otherwise both are the NaN sentinel. -/
theorem c7_credit_structure_summary (eda : CreditHistoryEDA)
    (hall : ∀ col ∈ CREDIT_NUMERIC_COLS, (eda.df.getCol col).isSome = true) :
    ∃ rows, eda.credit_structure_summary = some rows ∧
      rows.map CreditRow.column = CREDIT_NUMERIC_COLS ∧
      ∀ r ∈ rows, ∃ c, eda.df.getCol r.column = some c ∧ r.dtype = c.dtype ∧
        (isNumericDtype c.dtype = true →
          r.mean = meanOpt c.numVals ∧ r.std = stdRVal c.numVals) ∧
        (isNumericDtype c.dtype = false →
          r.mean = none ∧ r.std = RVal.nan) := by
  obtain ⟨rows, hr, hfr⟩ := optTraverse_some
    (fun col => (eda.df.getCol col).map (creditRowOf eda.df.numericDtypes col))
    CREDIT_NUMERIC_COLS
    (fun col hc => by
      cases hg : eda.df.getCol col with
      | none => exact absurd (hall col hc) (by simp [hg])
      | some c => simp [hg])
  refine ⟨rows, hr, ?_, ?_⟩
  · refine forall₂_map_eq (hfr.imp ?_)
    intro col r hcr
    obtain ⟨c, _, hmk⟩ := Option.map_eq_some'.mp hcr
    rw [← hmk]; rfl
  · intro r hrm
    obtain ⟨col, _, hfc⟩ := forall₂_mem_right hfr hrm
    obtain ⟨c, hc, hmk⟩ := Option.map_eq_some'.mp hfc
    subst hmk
    refine ⟨c, hc, rfl, ?_, ?_⟩
    · intro hnum
      have hmem := (numericDtypes_mem_iff hc).mpr hnum
      constructor
      · show (if c.dtype ∈ eda.df.numericDtypes then meanOpt c.numVals
          else none) = meanOpt c.numVals
        rw [if_pos hmem]
      · show (if c.dtype ∈ eda.df.numericDtypes then stdRVal c.numVals
          else RVal.nan) = stdRVal c.numVals
        rw [if_pos hmem]
    · intro hnum
      have hmem : c.dtype ∉ eda.df.numericDtypes := fun hm => by
        rw [(numericDtypes_mem_iff hc).mp hm] at hnum
        cases hnum
      constructor
      · show (if c.dtype ∈ eda.df.numericDtypes then meanOpt c.numVals
          else none) = none
        rw [if_neg hmem]
      · show (if c.dtype ∈ eda.df.numericDtypes then stdRVal c.numVals
          else RVal.nan) = RVal.nan
        rw [if_neg hmem]

/-- Counterexample for C7 as stated: the credit-numeric universe hardcoded
in the source has 29 columns, not 28, so no dataset can contain "all 28
credit-numeric universe columns" in a way that exhausts the universe. -/
theorem c7_counterexample :
    ¬ CREDIT_NUMERIC_COLS.length = 28 ∧ CREDIT_NUMERIC_COLS.length = 29 := by
  decide

/-- Witness for C7 at a concrete two-row dataframe holding all 29 universe
columns. -/
theorem c7_witness :
    (CreditHistoryEDA.credit_structure_summary creditEDA).isSome = true := by
  obtain ⟨rows, hr, -, -⟩ := c7_credit_structure_summary creditEDA (by decide)
  rw [hr]; rfl

/-- A sum of squares is nonnegative. -/
theorem sum_map_sq_nonneg {α : Type} (l : List α) (f : α → ℚ) :
    0 ≤ (l.map (fun x => f x ^ 2)).sum := by
  induction l with
  | nil => simp
  | cons a t ih =>
    simp only [List.map_cons, List.sum_cons]
    exact add_nonneg (sq_nonneg _) ih

/-- One step of the inductive Cauchy–Schwarz argument. -/
theorem cs_step (x y S P Q : ℚ) (hP : 0 ≤ P) (hQ : 0 ≤ Q)
    (hS : S ^ 2 ≤ P * Q) :
    (x * y + S) ^ 2 ≤ (x ^ 2 + P) * (y ^ 2 + Q) := by
  rcases eq_or_lt_of_le hQ with hQ0 | hQpos
  · have hS0 : S = 0 := by nlinarith
    subst hS0
    rw [← hQ0]
    nlinarith [mul_nonneg hP (sq_nonneg y)]
  · nlinarith [sq_nonneg (x * Q - y * S),
      mul_nonneg (sq_nonneg y) (sub_nonneg.mpr hS),
      mul_nonneg (le_of_lt hQpos) (sub_nonneg.mpr hS)]

/-- Cauchy–Schwarz for a list of pairs of rationals. -/
theorem list_cauchy_schwarz (l : List (ℚ × ℚ)) :
    ((l.map (fun p => p.1 * p.2)).sum) ^ 2 ≤
      ((l.map (fun p => p.1 ^ 2)).sum) * ((l.map (fun p => p.2 ^ 2)).sum) := by
  induction l with
  | nil => simp
  | cons a t ih =>
    simp only [List.map_cons, List.sum_cons]
    exact cs_step a.1 a.2 _ _ _
      (sum_map_sq_nonneg t (fun p => p.1)) (sum_map_sq_nonneg t (fun p => p.2)) ih

/-- The Pearson correlation of two optional series is either NaN or the real
number a / √b with 0 < b and a ^ 2 ≤ b, i.e. a value in [-1, 1]. -/
theorem corrQ_nan_or_bounded (xs ys : List (Option ℚ)) :
    corrQ xs ys = RVal.nan ∨
      ∃ a b, corrQ xs ys = RVal.divSqrt a b ∧ 0 < b ∧ a ^ 2 ≤ b := by
  unfold corrQ
  set ps := (xs.zip ys).filterMap
    (fun p => p.1.bind (fun a => p.2.map (fun b => (a, b)))) with hps
  set xbar := (ps.map Prod.fst).sum / ((ps.length : ℚ)) with hxbar
  set ybar := (ps.map Prod.snd).sum / ((ps.length : ℚ)) with hybar
  by_cases hc : (ps.map (fun p => (p.1 - xbar) ^ 2)).sum = 0 ∨
      (ps.map (fun p => (p.2 - ybar) ^ 2)).sum = 0
  · left
    simp only [hc, if_true]
  · right
    push_neg at hc
    refine ⟨(ps.map (fun p => (p.1 - xbar) * (p.2 - ybar))).sum,
      ((ps.map (fun p => (p.1 - xbar) ^ 2)).sum) *
        ((ps.map (fun p => (p.2 - ybar) ^ 2)).sum), ?_, ?_, ?_⟩
    · simp only [hc.1, hc.2, if_neg, or_self]
      simp
    · exact mul_pos
        (lt_of_le_of_ne (sum_map_sq_nonneg ps (fun p => p.1 - xbar)) (Ne.symm hc.1))
        (lt_of_le_of_ne (sum_map_sq_nonneg ps (fun p => p.2 - ybar)) (Ne.symm hc.2))
    · have hcs := list_cauchy_schwarz
        (ps.map (fun p => (p.1 - xbar, p.2 - ybar)))
      rw [List.map_map, List.map_map, List.map_map] at hcs
      simpa [Function.comp_def] using hcs

/-- C6 (amended): for every dataset containing the target column and all 29
credit-numeric universe columns (the source universe has 29 columns, not 28
as the spec states), `correlation_with_default()` returns a mapping indexed
by every universe column in universe order, no column omitted, and each
value is either the NaN sentinel or a correlation value a / √b with
a ^ 2 ≤ b and 0 < b, that is, a correlation coefficient in [-1, 1]. -/
theorem c6_correlation_with_default (eda : CreditHistoryEDA)
    (ht : (eda.df.getCol eda.target_col).isSome = true)
    (hall : ∀ col ∈ CREDIT_NUMERIC_COLS, (eda.df.getCol col).isSome = true) :
    ∃ s, eda.correlation_with_default = some s ∧
      s.map Prod.fst = CREDIT_NUMERIC_COLS ∧
      ∀ p ∈ s, p.2 = RVal.nan ∨
        ∃ a b, p.2 = RVal.divSqrt a b ∧ 0 < b ∧ a ^ 2 ≤ b := by
  obtain ⟨t, htc⟩ := Option.isSome_iff_exists.mp ht
  obtain ⟨s, hs, hfs⟩ := optTraverse_some
    (fun col => do
      let c ← eda.df.getCol col
      let t ← eda.df.getCol eda.target_col
      some (col, corrQ (c.cells.map (fun x => x.bind Cell.asNum))
                       (t.cells.map (fun x => x.bind Cell.asNum))))
    CREDIT_NUMERIC_COLS
    (fun col hc => by
      cases hg : eda.df.getCol col with
      | none => exact absurd (hall col hc) (by simp [hg])
      | some c => simp [hg, htc])
  refine ⟨s, hs, ?_, ?_⟩
  · refine forall₂_map_eq (hfs.imp ?_)
    intro col p hcp
    cases hg : eda.df.getCol col with
    | none => rw [hg] at hcp; cases hcp
    | some c =>
      rw [hg, htc] at hcp
      simp at hcp
      rw [← hcp]
  · intro p hp
    obtain ⟨col, -, hfc⟩ := forall₂_mem_right hfs hp
    cases hg : eda.df.getCol col with
    | none => rw [hg] at hfc; cases hfc
    | some c =>
      rw [hg, htc] at hfc
      simp at hfc
      rw [← hfc]
      exact corrQ_nan_or_bounded _ _

/-- Counterexample for C6 as stated: the credit-numeric universe hardcoded
in the source has 29 columns, not 28. -/
theorem c6_counterexample :
    CREDIT_NUMERIC_COLS.length ≠ 28 ∧ CREDIT_NUMERIC_COLS.length = 29 := by
  decide

/-- Witness for C6 at a concrete two-row dataframe holding all 29 universe
columns and the target column. -/
theorem c6_witness :
    (CreditHistoryEDA.correlation_with_default creditEDA).isSome = true := by
  obtain ⟨s, hs, -, -⟩ :=
    c6_correlation_with_default creditEDA (by decide) (by decide)
  rw [hs]; rfl

/-- In a nondecreasing list, `getD` is monotone over in-range indices. -/
theorem sorted_getD_le (s : List ℚ) (hs : s.Sorted (fun a b => a ≤ b))
    (i j : ℕ) (hij : i ≤ j) (hj : j < s.length) :
    s.getD i 0 ≤ s.getD j 0 := by
  have hi : i < s.length := lt_of_le_of_lt hij hj
  rw [List.getD_eq_getElem s 0 hi, List.getD_eq_getElem s 0 hj]
  rcases lt_or_eq_of_le hij with hlt | rfl
  · exact List.pairwise_iff_getElem.mp hs i j hi hj hlt
  · exact le_refl _

/-- Every member of a nondecreasing list is at least its first entry. -/
theorem sorted_getD_head_le (s : List ℚ) (hs : s.Sorted (fun a b => a ≤ b))
    (v : ℚ) (hv : v ∈ s) : s.getD 0 0 ≤ v := by
  obtain ⟨i, hi, hget⟩ := List.mem_iff_getElem.mp hv
  rw [← hget, ← List.getD_eq_getElem s 0 hi]
  exact sorted_getD_le s hs 0 i (Nat.zero_le i) hi

/-- Every member of a nondecreasing list is at most its last entry. -/
theorem sorted_le_getD_last (s : List ℚ) (hs : s.Sorted (fun a b => a ≤ b))
    (v : ℚ) (hv : v ∈ s) : v ≤ s.getD (s.length - 1) 0 := by
  obtain ⟨i, hi, hget⟩ := List.mem_iff_getElem.mp hv
  rw [← hget, ← List.getD_eq_getElem s 0 hi]
  exact sorted_getD_le s hs i (s.length - 1) (by omega) (by omega)

/-- A nondecreasing list whose minimum element is `m` starts with `m`. -/
theorem sorted_head?_eq_min (l : List ℚ) (hs : l.Sorted (fun a b => a ≤ b))
    (m : ℚ) (hm : m ∈ l) (hall : ∀ x ∈ l, m ≤ x) : l.head? = some m := by
  cases l with
  | nil => cases hm
  | cons a t =>
    have h1 : m ≤ a := hall a (List.mem_cons_self _ _)
    rcases List.mem_cons.mp hm with rfl | hm'
    · rfl
    · have h2 : a ≤ m := List.rel_of_sorted_cons hs m hm'
      rw [List.head?_cons, le_antisymm h1 h2]

/-- The interpolated quantile of a sorted nonempty list lies between the
first and the last entry, for probabilities in [0, 1]. -/
theorem quantileSorted_bounds (s : List ℚ)
    (hs : s.Sorted (fun a b => a ≤ b)) (hne : s ≠ []) (q : ℚ)
    (h0 : 0 ≤ q) (h1 : q ≤ 1) :
    s.getD 0 0 ≤ quantileSorted s q ∧
      quantileSorted s q ≤ s.getD (s.length - 1) 0 := by
  have hn : 1 ≤ s.length := List.length_pos.mpr hne
  have hnn : (0 : ℚ) ≤ (s.length : ℚ) - 1 := by
    have : (1 : ℚ) ≤ (s.length : ℚ) := by exact_mod_cast hn
    linarith
  set h : ℚ := q * ((s.length : ℚ) - 1) with hdef
  have hh0 : 0 ≤ h := mul_nonneg h0 hnn
  have hh1 : h ≤ (s.length : ℚ) - 1 := mul_le_of_le_one_left hnn h1
  have hfl0 : 0 ≤ ⌊h⌋ := Int.floor_nonneg.mpr hh0
  set l : ℕ := (⌊h⌋).toNat with hldef
  have hlcast : ((l : ℕ) : ℚ) = ((⌊h⌋ : ℤ) : ℚ) := by
    rw [hldef]
    have h2 : ((⌊h⌋.toNat : ℕ) : ℤ) = ⌊h⌋ := Int.toNat_of_nonneg hfl0
    exact_mod_cast congrArg (fun z : ℤ => (z : ℚ)) h2
  have hlle : (l : ℚ) ≤ h := by rw [hlcast]; exact Int.floor_le h
  have hg0 : 0 ≤ h - (l : ℚ) := by linarith
  have hg1 : h - (l : ℚ) < 1 := by
    rw [hlcast]
    have := Int.lt_floor_add_one h
    push_cast at this ⊢
    linarith
  have hlb : l ≤ s.length - 1 := by
    have hcast : ((s.length : ℚ) - 1) = (((s.length - 1 : ℕ) : ℤ) : ℚ) := by
      push_cast [hn]
      ring
    have hfl : ⌊h⌋ ≤ ((s.length - 1 : ℕ) : ℤ) := by
      have := Int.floor_le_floor (α := ℚ) hh1
      rwa [hcast, Int.floor_intCast] at this
    exact Int.toNat_le.mpr hfl
  have hl_lt : l < s.length := by omega
  have hq : quantileSorted s q =
      s.getD l 0 + (h - (l : ℚ)) * (s.getD (l + 1) (s.getD l 0) - s.getD l 0) :=
    rfl
  have hlohi : s.getD l 0 ≤ s.getD (l + 1) (s.getD l 0) := by
    rcases lt_or_le (l + 1) s.length with hlt | hge
    · rw [List.getD_eq_getElem s _ hlt, ← List.getD_eq_getElem s 0 hlt]
      exact sorted_getD_le s hs l (l + 1) (Nat.le_succ l) hlt
    · rw [List.getD_eq_default _ _ hge]
  constructor
  · rw [hq]
    have hstep : s.getD 0 0 ≤ s.getD l 0 :=
      sorted_getD_le s hs 0 l (Nat.zero_le l) hl_lt
    nlinarith [mul_nonneg hg0 (sub_nonneg.mpr hlohi)]
  · rw [hq]
    have hmain : s.getD l 0 + (h - (l : ℚ)) *
        (s.getD (l + 1) (s.getD l 0) - s.getD l 0) ≤
        s.getD (l + 1) (s.getD l 0) := by
      nlinarith [sub_nonneg.mpr hlohi]
    rcases lt_or_le (l + 1) s.length with hlt | hge
    · refine le_trans hmain ?_
      rw [List.getD_eq_getElem s _ hlt, ← List.getD_eq_getElem s 0 hlt]
      exact sorted_getD_le s hs (l + 1) (s.length - 1) (by omega) (by omega)
    · refine le_trans hmain ?_
      rw [List.getD_eq_default _ _ hge]
      exact sorted_getD_le s hs l (s.length - 1) (by omega) (by omega)

/-- The quantile at probability 0 is the first entry. -/
theorem quantileSorted_zero (s : List ℚ) : quantileSorted s 0 = s.getD 0 0 := by
  have h : quantileSorted s 0 =
      s.getD ((⌊(0 : ℚ) * ((s.length : ℚ) - 1)⌋).toNat) 0 +
        ((0 : ℚ) * ((s.length : ℚ) - 1) -
          (((⌊(0 : ℚ) * ((s.length : ℚ) - 1)⌋).toNat : ℕ) : ℚ)) *
        (s.getD ((⌊(0 : ℚ) * ((s.length : ℚ) - 1)⌋).toNat + 1)
          (s.getD ((⌊(0 : ℚ) * ((s.length : ℚ) - 1)⌋).toNat) 0) -
         s.getD ((⌊(0 : ℚ) * ((s.length : ℚ) - 1)⌋).toNat) 0) := rfl
  rw [h]
  simp

/-- The quantile at probability 1 is the last entry. -/
theorem quantileSorted_one (s : List ℚ) (hne : s ≠ []) :
    quantileSorted s 1 = s.getD (s.length - 1) 0 := by
  have hn : 1 ≤ s.length := List.length_pos.mpr hne
  have hcast : (1 : ℚ) * ((s.length : ℚ) - 1) = (((s.length - 1 : ℕ) : ℕ) : ℚ) := by
    push_cast [hn]
    ring
  have h : quantileSorted s 1 =
      s.getD ((⌊(1 : ℚ) * ((s.length : ℚ) - 1)⌋).toNat) 0 +
        ((1 : ℚ) * ((s.length : ℚ) - 1) -
          (((⌊(1 : ℚ) * ((s.length : ℚ) - 1)⌋).toNat : ℕ) : ℚ)) *
        (s.getD ((⌊(1 : ℚ) * ((s.length : ℚ) - 1)⌋).toNat + 1)
          (s.getD ((⌊(1 : ℚ) * ((s.length : ℚ) - 1)⌋).toNat) 0) -
         s.getD ((⌊(1 : ℚ) * ((s.length : ℚ) - 1)⌋).toNat) 0) := rfl
  rw [h, hcast, Int.floor_natCast, Int.toNat_natCast]
  simp

/-- A list containing two distinct elements has at least two entries. -/
theorem two_le_length_of_two_mem {α : Type} {l : List α} {a b : α}
    (ha : a ∈ l) (hb : b ∈ l) (hab : a ≠ b) : 2 ≤ l.length := by
  match l with
  | [] => cases ha
  | [x] =>
    rw [List.mem_singleton] at ha hb
    exact absurd (ha.trans hb.symm) hab
  | x :: y :: t => simp

/-- A duplicate-free list all of whose elements equal `m` has at most one
entry. -/
theorem nodup_length_le_one {α : Type} {l : List α} (hn : l.Nodup) (m : α)
    (h : ∀ x ∈ l, x = m) : l.length ≤ 1 := by
  match l with
  | [] => simp
  | [a] => simp
  | a :: b :: t =>
    exfalso
    have ha := h a (List.mem_cons_self _ _)
    have hb := h b (List.mem_cons_of_mem _ (List.mem_cons_self _ _))
    rw [List.nodup_cons] at hn
    exact hn.1 (by rw [ha.trans hb.symm]; exact List.mem_cons_self _ _)

/-- When a column has two distinct values, the sorted first and last entries
differ. -/
theorem min_ne_max_of_dedup (vals : List ℚ) (h2 : 2 ≤ vals.dedup.length) :
    (vals.insertionSort (fun a b => a ≤ b)).getD 0 0 ≠
      (vals.insertionSort (fun a b => a ≤ b)).getD
        ((vals.insertionSort (fun a b => a ≤ b)).length - 1) 0 := by
  set s := vals.insertionSort (fun a b => a ≤ b) with hsdef
  have hsort : s.Sorted (fun a b => a ≤ b) := List.sorted_insertionSort _ vals
  intro heq
  have hall : ∀ x ∈ vals, x = s.getD 0 0 := by
    intro x hx
    have hxs : x ∈ s := (List.perm_insertionSort _ vals).mem_iff.mpr hx
    have hle1 := sorted_getD_head_le s hsort x hxs
    have hle2 := sorted_le_getD_last s hsort x hxs
    rw [← heq] at hle2
    exact le_antisymm hle2 hle1
  have := nodup_length_le_one (List.nodup_dedup vals) (s.getD 0 0)
    (fun x hx => hall x (List.mem_dedup.mp hx))
  omega

/-- The raw qcut edge list has `bins + 1` entries. -/
theorem qcutRawEdges_length (vals : List ℚ) (bins : ℕ) :
    (qcutRawEdges vals bins).length = bins + 1 := by
  simp [qcutRawEdges]

/-- The raw qcut edge list starts with the minimum data value. -/
theorem qcutRawEdges_head? (vals : List ℚ) (bins : ℕ) :
    (qcutRawEdges vals bins).head? =
      some ((vals.insertionSort (fun a b => a ≤ b)).getD 0 0) := by
  unfold qcutRawEdges
  rw [List.range_succ_eq_map, List.map_cons, List.head?_cons]
  simp [quantileSorted_zero]

/-- The maximum data value is a raw qcut edge. -/
theorem qcutRawEdges_mem_max (vals : List ℚ) (bins : ℕ) (hbins : 1 ≤ bins)
    (hne : vals ≠ []) :
    (vals.insertionSort (fun a b => a ≤ b)).getD
        ((vals.insertionSort (fun a b => a ≤ b)).length - 1) 0 ∈
      qcutRawEdges vals bins := by
  have hsne : vals.insertionSort (fun a b => a ≤ b) ≠ [] := by
    intro hc
    have := List.length_insertionSort (fun a b => a ≤ b) vals
    rw [hc] at this
    exact hne (List.length_eq_zero.mp this.symm)
  unfold qcutRawEdges
  refine List.mem_map.mpr ⟨bins, List.mem_range.mpr (Nat.lt_succ_self bins), ?_⟩
  have hb0 : ((bins : ℕ) : ℚ) ≠ 0 := Nat.cast_ne_zero.mpr (by omega)
  rw [div_self hb0, quantileSorted_one _ hsne]

/-- Every raw qcut edge is at least the minimum data value. -/
theorem qcutRawEdges_min_le (vals : List ℚ) (bins : ℕ) (hbins : 1 ≤ bins)
    (hne : vals ≠ []) :
    ∀ x ∈ qcutRawEdges vals bins,
      (vals.insertionSort (fun a b => a ≤ b)).getD 0 0 ≤ x := by
  have hsne : vals.insertionSort (fun a b => a ≤ b) ≠ [] := by
    intro hc
    have := List.length_insertionSort (fun a b => a ≤ b) vals
    rw [hc] at this
    exact hne (List.length_eq_zero.mp this.symm)
  have hsort : (vals.insertionSort (fun a b => a ≤ b)).Sorted
      (fun a b => a ≤ b) := List.sorted_insertionSort _ vals
  intro x hx
  obtain ⟨i, hi, hqx⟩ := List.mem_map.mp hx
  have hi' : i ≤ bins := by
    have := List.mem_range.mp hi
    omega
  have hq0 : (0 : ℚ) ≤ (i : ℚ) / (bins : ℚ) :=
    div_nonneg (Nat.cast_nonneg i) (Nat.cast_nonneg bins)
  have hbpos : (0 : ℚ) < (bins : ℚ) := by exact_mod_cast (by omega : 0 < bins)
  have hq1 : (i : ℚ) / (bins : ℚ) ≤ 1 :=
    (div_le_one hbpos).mpr (by exact_mod_cast hi')
  rw [← hqx]
  exact (quantileSorted_bounds _ hsort hsne _ hq0 hq1).1

/-- Unfolding equation for `qcutEdges`. -/
theorem qcutEdges_eq (vals : List ℚ) (bins : ℕ) :
    qcutEdges vals bins =
      if ((qcutRawEdges vals bins).insertionSort (fun a b => a ≤ b)).dedup.length <
            (qcutRawEdges vals bins).length ∧
          (qcutRawEdges vals bins).length ≠ 2 then
        ((qcutRawEdges vals bins).insertionSort (fun a b => a ≤ b)).dedup
      else qcutRawEdges vals bins := rfl

/-- Membership in the deduplicated sorted edges agrees with membership in
the raw edges. -/
theorem dedup_sort_mem (l : List ℚ) (x : ℚ) :
    x ∈ (l.insertionSort (fun a b => a ≤ b)).dedup ↔ x ∈ l := by
  rw [List.mem_dedup, (List.perm_insertionSort _ l).mem_iff]

/-- The final qcut edge list has at most `bins + 1` entries. -/
theorem qcutEdges_length_le (vals : List ℚ) (bins : ℕ) :
    (qcutEdges vals bins).length ≤ bins + 1 := by
  rw [qcutEdges_eq]
  split
  · calc ((qcutRawEdges vals bins).insertionSort
          (fun a b => a ≤ b)).dedup.length ≤
        ((qcutRawEdges vals bins).insertionSort (fun a b => a ≤ b)).length :=
          (List.dedup_sublist _).length_le
      _ = (qcutRawEdges vals bins).length := List.length_insertionSort _ _
      _ = bins + 1 := qcutRawEdges_length vals bins
  · rw [qcutRawEdges_length]

/-- Every final qcut edge is at least the minimum data value. -/
theorem qcutEdges_min_le (vals : List ℚ) (bins : ℕ) (hbins : 1 ≤ bins)
    (hne : vals ≠ []) :
    ∀ x ∈ qcutEdges vals bins,
      (vals.insertionSort (fun a b => a ≤ b)).getD 0 0 ≤ x := by
  intro x hx
  rw [qcutEdges_eq] at hx
  refine qcutRawEdges_min_le vals bins hbins hne x ?_
  rcases Decidable.em (((qcutRawEdges vals bins).insertionSort
      (fun a b => a ≤ b)).dedup.length < (qcutRawEdges vals bins).length ∧
      (qcutRawEdges vals bins).length ≠ 2) with h | h
  · rw [if_pos h] at hx
    exact (dedup_sort_mem _ _).mp hx
  · rwa [if_neg h] at hx

/-- The maximum data value is a final qcut edge. -/
theorem qcutEdges_mem_max (vals : List ℚ) (bins : ℕ) (hbins : 1 ≤ bins)
    (hne : vals ≠ []) :
    (vals.insertionSort (fun a b => a ≤ b)).getD
        ((vals.insertionSort (fun a b => a ≤ b)).length - 1) 0 ∈
      qcutEdges vals bins := by
  rw [qcutEdges_eq]
  split
  · exact (dedup_sort_mem _ _).mpr (qcutRawEdges_mem_max vals bins hbins hne)
  · exact qcutRawEdges_mem_max vals bins hbins hne

/-- The final qcut edge list starts with the minimum data value. -/
theorem qcutEdges_head? (vals : List ℚ) (bins : ℕ) (hbins : 1 ≤ bins)
    (hne : vals ≠ []) :
    (qcutEdges vals bins).head? =
      some ((vals.insertionSort (fun a b => a ≤ b)).getD 0 0) := by
  rw [qcutEdges_eq]
  split
  · have hsorted : (((qcutRawEdges vals bins).insertionSort
        (fun a b => a ≤ b)).dedup).Sorted (fun a b => a ≤ b) :=
      List.Pairwise.sublist (List.dedup_sublist _)
        (List.sorted_insertionSort _ _)
    refine sorted_head?_eq_min _ hsorted _ ?_ ?_
    · refine (dedup_sort_mem _ _).mpr ?_
      exact List.mem_of_mem_head?
        (Option.mem_def.mpr (qcutRawEdges_head? vals bins))
    · intro x hx
      exact qcutRawEdges_min_le vals bins hbins hne x ((dedup_sort_mem _ _).mp hx)
  · exact qcutRawEdges_head? vals bins

/-- Under the claim's hypotheses (at least `bins` distinct values, at least
one requested bucket) the final qcut edge list has at least two entries. -/
theorem qcutEdges_two_le (vals : List ℚ) (bins : ℕ) (hbins : 1 ≤ bins)
    (hdist : bins ≤ vals.dedup.length) :
    2 ≤ (qcutEdges vals bins).length := by
  have hne : vals ≠ [] := by
    intro hc
    rw [hc] at hdist
    simp at hdist
    omega
  rw [qcutEdges_eq]
  rcases Decidable.em (((qcutRawEdges vals bins).insertionSort
      (fun a b => a ≤ b)).dedup.length < (qcutRawEdges vals bins).length ∧
      (qcutRawEdges vals bins).length ≠ 2) with h | h
  · rw [if_pos h]
    have h2 : 2 ≤ vals.dedup.length := by
      rcases Nat.lt_or_ge bins 2 with hb | hb
      · exfalso
        have hb1 : bins = 1 := by omega
        rw [hb1, qcutRawEdges_length] at h
        exact h.2 rfl
      · omega
    have hne2 := min_ne_max_of_dedup vals h2
    refine two_le_length_of_two_mem
      ((dedup_sort_mem _ _).mpr
        (List.mem_of_mem_head? (Option.mem_def.mpr (qcutRawEdges_head? vals bins))))
      ((dedup_sort_mem _ _).mpr (qcutRawEdges_mem_max vals bins hbins hne)) hne2
  · rw [if_neg h, qcutRawEdges_length]
    omega

/-- A list with a member failing the predicate has fewer matches than
entries. -/
theorem countP_lt_length_of_not {α : Type} {l : List α} {p : α → Bool}
    {a : α} (ha : a ∈ l) (hpa : p a = false) : l.countP p < l.length := by
  have h1 := List.length_eq_countP_add_countP p l
  have h2 : 0 < l.countP (fun x => decide ¬ (p x = true)) :=
    List.countP_pos_iff.mpr ⟨a, ha, by simp [hpa]⟩
  omega

/-- Unfolding equation for `bucketId`. -/
theorem bucketId_eq (edges : List ℚ) (v : ℚ) :
    bucketId edges v =
      if (edges.countP (fun e => decide (e < v)) +
            (if edges.head? = some v then 1 else 0)) = 0 ∨
          (edges.countP (fun e => decide (e < v)) +
            (if edges.head? = some v then 1 else 0)) = edges.length then none
      else some ((edges.countP (fun e => decide (e < v)) +
            (if edges.head? = some v then 1 else 0)) - 1) := rfl

/-- Any assigned bucket index is below the number of buckets. -/
theorem bucketId_lt (edges : List ℚ) (v : ℚ) (j : ℕ)
    (h : bucketId edges v = some j) : j < edges.length - 1 := by
  rw [bucketId_eq] at h
  rcases Decidable.em ((edges.countP (fun e => decide (e < v)) +
      (if edges.head? = some v then 1 else 0)) = 0 ∨
      (edges.countP (fun e => decide (e < v)) +
        (if edges.head? = some v then 1 else 0)) = edges.length) with hc | hc
  · rw [if_pos hc] at h
    cases h
  · rw [if_neg hc] at h
    push_neg at hc
    have hj := Option.some_inj.mp h
    rcases Decidable.em (edges.head? = some v) with hb | hb
    · have hvin : v ∈ edges := List.mem_of_mem_head? (Option.mem_def.mpr hb)
      have hcnt : edges.countP (fun e => decide (e < v)) < edges.length :=
        countP_lt_length_of_not hvin (by simp)
      rw [if_pos hb] at hc hj
      omega
    · have hcnt : edges.countP (fun e => decide (e < v)) ≤ edges.length :=
        List.countP_le_length _
      rw [if_neg hb] at hc hj
      omega

/-- Every value between the least edge and some edge is assigned a bucket. -/
theorem bucketId_isSome (edges : List ℚ) (minV maxV v : ℚ)
    (hhead : edges.head? = some minV)
    (hallmin : ∀ x ∈ edges, minV ≤ x)
    (hmaxmem : maxV ∈ edges)
    (hlen2 : 2 ≤ edges.length)
    (hv1 : minV ≤ v) (hv2 : v ≤ maxV) :
    (bucketId edges v).isSome = true := by
  rw [bucketId_eq]
  have hcntlt : edges.countP (fun e => decide (e < v)) < edges.length :=
    countP_lt_length_of_not hmaxmem (by simp [not_lt.mpr hv2])
  rcases eq_or_lt_of_le hv1 with heq | hlt
  · have hb : edges.head? = some v := by rw [hhead, heq]
    have hcnt0 : edges.countP (fun e => decide (e < v)) = 0 := by
      refine List.countP_eq_zero.mpr ?_
      intro x hx
      have hvx := hallmin x hx
      rw [heq] at hvx
      simp [not_lt.mpr hvx]
    rw [if_pos hb, hcnt0]
    rw [if_neg (by omega : ¬ ((0 + 1 : ℕ) = 0 ∨ (0 + 1 : ℕ) = edges.length))]
    rfl
  · have hb : ¬ (edges.head? = some v) := by
      rw [hhead]
      intro hcontra
      exact absurd (Option.some_inj.mp hcontra) (ne_of_lt hlt)
    have hcntpos : 0 < edges.countP (fun e => decide (e < v)) :=
      List.countP_pos_iff.mpr
        ⟨minV, List.mem_of_mem_head? (Option.mem_def.mpr hhead), by simp [hlt]⟩
    rw [if_neg hb]
    rw [if_neg (by omega :
      ¬ ((edges.countP (fun e => decide (e < v)) + 0) = 0 ∨
         (edges.countP (fun e => decide (e < v)) + 0) = edges.length))]
    rfl

/-- Summing, over all buckets, the rows assigned to that bucket counts
exactly the rows assigned to some bucket. -/
theorem sum_countP_bucket {α : Type} (g : α → Option ℕ) (l : List α) (k : ℕ)
    (h : ∀ a ∈ l, ∀ j, g a = some j → j < k) :
    ∑ j ∈ Finset.range k, l.countP (fun a => g a == some j) =
      l.countP (fun a => (g a).isSome) := by
  induction l with
  | nil => simp
  | cons a t ih =>
    have ht := ih (fun x hx => h x (List.mem_cons_of_mem _ hx))
    simp only [List.countP_cons]
    rw [Finset.sum_add_distrib, ht]
    congr 1
    cases hg : g a with
    | none => simp [hg]
    | some j0 =>
      have hj0 : j0 < k := h a (List.mem_cons_self _ _) j0 hg
      simp only [hg, Option.isSome_some, if_true, beq_iff_eq, Option.some_inj]
      rw [show (fun j => if j0 = j then 1 else 0) = fun j => if j0 = j then (fun _ : ℕ => 1) j else 0 from rfl]
      rw [Finset.sum_ite_eq (Finset.range k) j0 (fun _ => 1)]
      simp [Finset.mem_range.mpr hj0]

/-- Counting pairs of a zip by a predicate on the first component counts the
matching entries of the first list, when the lists have equal length. -/
theorem countP_zip_fst {α β : Type} :
    ∀ (l1 : List α) (l2 : List β) (p : α → Bool), l1.length = l2.length →
      (l1.zip l2).countP (fun q => p q.1) = l1.countP p := by
  intro l1
  induction l1 with
  | nil => intro l2 p _; simp
  | cons x t ih =>
    intro l2 p hlen
    cases l2 with
    | nil => cases hlen
    | cons y t2 =>
      simp only [List.zip_cons_cons, List.countP_cons]
      rw [ih t2 p (Nat.succ_injective hlen)]

/-- A sum of a function mapped over `List.range` is the `Finset.range` sum. -/
theorem list_range_map_sum (k : ℕ) (f : ℕ → ℕ) :
    ((List.range k).map f).sum = ∑ j ∈ Finset.range k, f j := by
  induction k with
  | zero => simp
  | succ n ih =>
    rw [List.range_succ, List.map_append, List.sum_append,
      Finset.sum_range_succ, ih]
    simp

/-- C1 (amended): for every dataset containing the bucket column and the
target column, with a fully non-missing 0/1 target, a numeric bucket column,
and at least `bins ≥ 1` distinct non-missing values,
`default_rate_by_bucket(col, bins)` returns between 1 and `bins` rows (pandas
collapses duplicate quantile edges, so fewer than `bins` rows can remain),
and the `n_loans` values over those rows sum to the count of non-missing
rows in `col`. -/
theorem c1_default_rate_by_bucket (eda : CreditHistoryEDA) (col : String)
    (bins : ℕ) (c t : Column)
    (hc : eda.df.getCol col = some c)
    (ht : eda.df.getCol eda.target_col = some t)
    (hlen : c.cells.length = t.cells.length)
    (hbins : 1 ≤ bins)
    (hdist : bins ≤ c.numVals.dedup.length)
    (htgt : ∀ x ∈ t.cells, x.isSome = true)
    (hnum : ∀ x ∈ c.cells, x.all Cell.isNum = true) :
    ∃ rows, eda.default_rate_by_bucket col bins = some rows ∧
      1 ≤ rows.length ∧ rows.length ≤ bins ∧
      (rows.map BucketRow.n_loans).sum =
        c.cells.countP (fun x => x.isSome) := by
  have hvne : c.numVals ≠ [] := by
    intro hcon
    rw [hcon] at hdist
    simp at hdist
    omega
  have hsort : (c.numVals.insertionSort (fun a b => a ≤ b)).Sorted
      (fun a b => a ≤ b) := List.sorted_insertionSort _ _
  have hhead := qcutEdges_head? c.numVals bins hbins hvne
  have hmax := qcutEdges_mem_max c.numVals bins hbins hvne
  have hminle := qcutEdges_min_le c.numVals bins hbins hvne
  have hlen2 := qcutEdges_two_le c.numVals bins hbins hdist
  have hlenle := qcutEdges_length_le c.numVals bins
  have hrowlen : (bucketRowsOf c t bins).length =
      (qcutEdges c.numVals bins).length - 1 := by
    unfold bucketRowsOf
    simp
  refine ⟨bucketRowsOf c t bins, ?_, ?_, ?_, ?_⟩
  · unfold CreditHistoryEDA.default_rate_by_bucket
    rw [hc, ht]
    rfl
  · omega
  · omega
  · -- the n_loans sum over the buckets counts every non-missing row of col
    have hmap : (bucketRowsOf c t bins).map BucketRow.n_loans =
        (List.range ((qcutEdges c.numVals bins).length - 1)).map
          (fun j => ((c.cells.zip t.cells).filter
            (fun p => (p.1.bind Cell.asNum).bind
              (bucketId (qcutEdges c.numVals bins)) == some j)).countP
            (fun p => p.2.isSome)) := by
      unfold bucketRowsOf
      rw [List.map_map]
      rfl
    have hmap2 : ∀ j : ℕ, ((c.cells.zip t.cells).filter
        (fun p => (p.1.bind Cell.asNum).bind
          (bucketId (qcutEdges c.numVals bins)) == some j)).countP
        (fun p => p.2.isSome) =
        (c.cells.zip t.cells).countP
          (fun p => (p.1.bind Cell.asNum).bind
            (bucketId (qcutEdges c.numVals bins)) == some j) := by
      intro j
      rw [List.countP_eq_length.mpr, ← List.countP_eq_length_filter]
      intro p hp
      exact htgt p.2 (List.of_mem_zip (List.mem_of_mem_filter hp)).2
    have hbound : ∀ p ∈ c.cells.zip t.cells, ∀ j : ℕ,
        (p.1.bind Cell.asNum).bind (bucketId (qcutEdges c.numVals bins)) =
          some j → j < (qcutEdges c.numVals bins).length - 1 := by
      intro p _ j hj
      obtain ⟨v, -, hbid⟩ := Option.bind_eq_some.mp hj
      exact bucketId_lt _ v j hbid
    have hsum := sum_countP_bucket
      (fun p : Option Cell × Option Cell =>
        (p.1.bind Cell.asNum).bind (bucketId (qcutEdges c.numVals bins)))
      (c.cells.zip t.cells) ((qcutEdges c.numVals bins).length - 1) hbound
    have hsum' : ∑ j ∈ Finset.range ((qcutEdges c.numVals bins).length - 1),
        (c.cells.zip t.cells).countP
          (fun p => (p.1.bind Cell.asNum).bind
            (bucketId (qcutEdges c.numVals bins)) == some j) =
        (c.cells.zip t.cells).countP
          (fun p => ((p.1.bind Cell.asNum).bind
            (bucketId (qcutEdges c.numVals bins))).isSome) := hsum
    have hcong : (c.cells.zip t.cells).countP
        (fun p => ((p.1.bind Cell.asNum).bind
          (bucketId (qcutEdges c.numVals bins))).isSome) =
        (c.cells.zip t.cells).countP (fun p => p.1.isSome) := by
      refine List.countP_congr ?_
      intro p hp
      cases hp1 : p.1 with
      | none => simp
      | some cell =>
        have hcellnum : cell.isNum = true := by
          have := hnum p.1 (List.of_mem_zip hp).1
          rw [hp1] at this
          exact this
        cases cell with
        | str s => cases hcellnum
        | num q =>
          have hqvals : q ∈ c.numVals :=
            List.mem_filterMap.mpr ⟨p.1, (List.of_mem_zip hp).1, by rw [hp1]; rfl⟩
          have hqs : q ∈ c.numVals.insertionSort (fun a b => a ≤ b) :=
            (List.perm_insertionSort _ _).mem_iff.mpr hqvals
          have hq1 := sorted_getD_head_le _ hsort q hqs
          have hq2 := sorted_le_getD_last _ hsort q hqs
          have hsome := bucketId_isSome (qcutEdges c.numVals bins)
            ((c.numVals.insertionSort (fun a b => a ≤ b)).getD 0 0)
            ((c.numVals.insertionSort (fun a b => a ≤ b)).getD
              ((c.numVals.insertionSort (fun a b => a ≤ b)).length - 1) 0)
            q hhead hminle hmax hlen2 hq1 hq2
          simp [Cell.asNum, hsome]
    have hfst : (c.cells.zip t.cells).countP (fun p => p.1.isSome) =
        c.cells.countP (fun x => x.isSome) :=
      countP_zip_fst c.cells t.cells (fun x => x.isSome) hlen
    calc ((bucketRowsOf c t bins).map BucketRow.n_loans).sum
        = ((List.range ((qcutEdges c.numVals bins).length - 1)).map
            (fun j => (c.cells.zip t.cells).countP
              (fun p => (p.1.bind Cell.asNum).bind
                (bucketId (qcutEdges c.numVals bins)) == some j))).sum := by
          rw [hmap]
          exact congrArg List.sum (List.map_congr_left (fun j _ => hmap2 j))
      _ = ∑ j ∈ Finset.range ((qcutEdges c.numVals bins).length - 1),
            (c.cells.zip t.cells).countP
              (fun p => (p.1.bind Cell.asNum).bind
                (bucketId (qcutEdges c.numVals bins)) == some j) :=
          list_range_map_sum _ _
      _ = (c.cells.zip t.cells).countP
            (fun p => ((p.1.bind Cell.asNum).bind
              (bucketId (qcutEdges c.numVals bins))).isSome) := hsum'
      _ = (c.cells.zip t.cells).countP (fun p => p.1.isSome) := hcong
      _ = c.cells.countP (fun x => x.isSome) := hfst

/-- Witness for C1 (amended) at a concrete two-row dataframe with two
distinct `dti` values and two requested buckets. -/
theorem c1_witness :
    (CreditHistoryEDA.default_rate_by_bucket creditEDA "dti" 2).isSome =
      true := by
  obtain ⟨rows, hr, -, -, -⟩ := c1_default_rate_by_bucket creditEDA "dti" 2
    (numColOf [some 0, some 1]) (numColOf [some 0, some 1]) rfl rfl
    (by decide) (by decide) (by decide) (by decide) (by decide)
  rw [hr]; rfl

/-- Counterexample for C1 as stated: the `dti` column `[0, 0, 0, 1, 2]` has
three distinct values, at least `bins = 2`, and its target column is fully
non-missing, yet `default_rate_by_bucket("dti", 2)` returns one row, not
two: the median quantile edge equals the minimum, and `pd.qcut` with
`duplicates='drop'` collapses the duplicate edge. -/
theorem c1_counterexample :
    2 ≤ ((numColOf [some 0, some 0, some 0, some 1, some 2]).numVals).dedup.length ∧
    (∀ x ∈ (numColOf [some 0, some 0, some 0, some 0, some 1]).cells,
      x.isSome = true) ∧
    Option.map List.length
      (CreditHistoryEDA.default_rate_by_bucket qcutEDA "dti" 2) = some 1 := by
  refine ⟨by decide, by decide, ?_⟩
  have hsorted5 : ([0, 0, 0, 1, 2] : List ℚ).Sorted (fun a b => a ≤ b) := by
    simp [List.sorted_cons]
  have hs5 : ([0, 0, 0, 1, 2] : List ℚ).insertionSort (fun a b => a ≤ b) =
      [0, 0, 0, 1, 2] := hsorted5.insertionSort_eq
  have hq0 : quantileSorted [0, 0, 0, 1, 2] (((0 : ℕ) : ℚ) / ((2 : ℕ) : ℚ)) =
      0 := by
    have h : (((0 : ℕ) : ℚ) / ((2 : ℕ) : ℚ)) = 0 := by norm_num
    rw [h, quantileSorted_zero]
    rfl
  have hq1 : quantileSorted [0, 0, 0, 1, 2] (((1 : ℕ) : ℚ) / ((2 : ℕ) : ℚ)) =
      0 := by
    have h : (((1 : ℕ) : ℚ) / ((2 : ℕ) : ℚ)) = 1 / 2 := by norm_num
    rw [h]
    unfold quantileSorted
    norm_num
    simp only [show Int.toNat 2 = 2 from rfl]
    norm_num
  have hq2 : quantileSorted [0, 0, 0, 1, 2] (((2 : ℕ) : ℚ) / ((2 : ℕ) : ℚ)) =
      2 := by
    have h : (((2 : ℕ) : ℚ) / ((2 : ℕ) : ℚ)) = 1 := by norm_num
    rw [h, quantileSorted_one _ (by simp)]
    rfl
  have hraw : qcutRawEdges [0, 0, 0, 1, 2] 2 = [0, 0, 2] := by
    show (List.range 3).map
      (fun i : ℕ => quantileSorted
        (([0, 0, 0, 1, 2] : List ℚ).insertionSort (fun a b => a ≤ b))
        ((i : ℚ) / ((2 : ℕ) : ℚ))) = [0, 0, 2]
    rw [hs5, show List.range 3 = [0, 1, 2] from rfl, List.map_cons,
      List.map_cons, List.map_cons, List.map_nil, hq0, hq1, hq2]
  have hu : (([0, 0, 2] : List ℚ).insertionSort (fun a b => a ≤ b)).dedup =
      [0, 2] := by
    have hsorted3 : ([0, 0, 2] : List ℚ).Sorted (fun a b => a ≤ b) := by
      simp [List.sorted_cons]
    rw [hsorted3.insertionSort_eq]
    rfl
  have hedges : qcutEdges [0, 0, 0, 1, 2] 2 = [0, 2] := by
    rw [qcutEdges_eq, hraw, hu]
    norm_num
  have hres : CreditHistoryEDA.default_rate_by_bucket qcutEDA "dti" 2 =
      some (bucketRowsOf (numColOf [some 0, some 0, some 0, some 1, some 2])
        (numColOf [some 0, some 0, some 0, some 0, some 1]) 2) := rfl
  rw [hres, Option.map_some']
  have hlen1 : (bucketRowsOf
      (numColOf [some 0, some 0, some 0, some 1, some 2])
      (numColOf [some 0, some 0, some 0, some 0, some 1]) 2).length = 1 := by
    have hvals : (numColOf
        [some 0, some 0, some 0, some 1, some 2]).numVals =
        [0, 0, 0, 1, 2] := rfl
    unfold bucketRowsOf
    rw [List.length_map, List.length_range, hvals, hedges]
    rfl
  rw [hlen1]
